import Mathlib

/-!
# Verification of the pyecs ECS manager

A shallow embedding of `src/src/ecs/ecs.py` (class `EcsManager` and the
module-level `process` frame loop).  Python dicts are modelled as
insertion-ordered association lists (`dget` / `dset` / `dpop` mirror
`d[k]`, `d[k] = v` and `d.pop(k)`); the Python `set` of live entities is a
duplicate-free list; component instances are values carrying an instance
identity `iid` standing in for Python object identity, their type id `cid`
and the back-reference `eid` that `register_component` assigns.
Operations that can raise `ValueError` for an unknown entity return an
`Except` result paired with the manager state as it is when the call
returns or raises.
-/

namespace Pyecs

/-- Lookup in a Python-dict-like association list: value of the first
entry with the given key (`d[k]` / `d.get(k)`). -/
def dget {K V : Type} [DecidableEq K] : List (K × V) → K → Option V
  | [], _ => none
  | (k', v) :: rest, k => if k' = k then some v else dget rest k

/-- Python dict assignment `d[k] = v`: update the first entry with the key
in place, or append a new entry at the end. -/
def dset {K V : Type} [DecidableEq K] : List (K × V) → K → V → List (K × V)
  | [], k, v => [(k, v)]
  | (k', v') :: rest, k, v =>
      if k' = k then (k', v) :: rest else (k', v') :: dset rest k v

/-- Python dict `d.pop(k, None)`: remove the first entry with the key. -/
def dpop {K V : Type} [DecidableEq K] : List (K × V) → K → List (K × V)
  | [], _ => []
  | (k', v') :: rest, k => if k' = k then rest else (k', v') :: dpop rest k

/-- `true` when no entry of the list has the given key. -/
def keyAbsent {K V : Type} [DecidableEq K] (k : K) (d : List (K × V)) : Bool :=
  d.all fun p => decide (p.1 ≠ k)

/-- Keys of the association list are pairwise distinct (a real Python dict
never holds a key twice). -/
def distinctKeys {K V : Type} [DecidableEq K] : List (K × V) → Bool
  | [] => true
  | p :: rest => keyAbsent p.1 rest && distinctKeys rest

/-! ## Basic association-list lemmas -/

theorem dget_dset {K V : Type} [DecidableEq K] (d : List (K × V)) (k k' : K) (v : V) :
    dget (dset d k v) k' = if k = k' then some v else dget d k' := by
  induction d with
  | nil => by_cases h : k = k' <;> simp [dset, dget, h]
  | cons p rest ih =>
      obtain ⟨k₀, v₀⟩ := p
      by_cases h₀ : k₀ = k
      · subst h₀
        by_cases h : k₀ = k' <;> simp [dset, dget, h]
      · simp only [dset, h₀, if_false]
        by_cases h : k₀ = k'
        · subst h
          have hne : k ≠ k₀ := fun hh => h₀ hh.symm
          simp [dget, hne]
        · simp [dget, h, ih]

theorem dget_dpop_ne {K V : Type} [DecidableEq K] (d : List (K × V)) (k k' : K)
    (h : k ≠ k') : dget (dpop d k) k' = dget d k' := by
  induction d with
  | nil => simp [dpop, dget]
  | cons p rest ih =>
      obtain ⟨k₀, v₀⟩ := p
      by_cases h₀ : k₀ = k
      · subst h₀
        simp [dpop, dget, h]
      · by_cases h₁ : k₀ = k' <;> simp [dpop, dget, h₀, h₁, Ne.symm h, ih]

theorem keyAbsent_dget {K V : Type} [DecidableEq K] {d : List (K × V)} {k : K}
    (h : keyAbsent k d = true) : dget d k = none := by
  induction d with
  | nil => simp [dget]
  | cons p rest ih =>
      simp only [keyAbsent, List.all_cons, Bool.and_eq_true, decide_eq_true_eq] at h
      simp [dget, h.1, ih (by simpa [keyAbsent] using h.2)]

theorem dget_none_keyAbsent {K V : Type} [DecidableEq K] {d : List (K × V)} {k : K}
    (h : dget d k = none) : keyAbsent k d = true := by
  induction d with
  | nil => simp [keyAbsent]
  | cons p rest ih =>
      obtain ⟨k₀, v₀⟩ := p
      by_cases h₀ : k₀ = k
      · simp [dget, h₀] at h
      · simp [dget, h₀] at h
        simpa [keyAbsent, h₀] using ih h

theorem dget_dpop_self {K V : Type} [DecidableEq K] {d : List (K × V)} {k : K}
    (h : distinctKeys d = true) : dget (dpop d k) k = none := by
  induction d with
  | nil => simp [dpop, dget]
  | cons p rest ih =>
      obtain ⟨k₀, v₀⟩ := p
      simp only [distinctKeys, Bool.and_eq_true] at h
      by_cases h₀ : k₀ = k
      · subst h₀
        simpa [dpop] using keyAbsent_dget h.1
      · simp [dpop, dget, h₀, ih h.2]

theorem mem_dset {K V : Type} [DecidableEq K] {d : List (K × V)} {k : K} {v : V}
    {p : K × V} (h : p ∈ dset d k v) : p ∈ d ∨ p = (k, v) := by
  induction d with
  | nil => simpa [dset] using h
  | cons q rest ih =>
      obtain ⟨k₀, v₀⟩ := q
      by_cases h₀ : k₀ = k
      · subst h₀
        rcases (by simpa [dset] using h : p = (k₀, v) ∨ p ∈ rest) with h₁ | h₁
        · exact Or.inr h₁
        · exact Or.inl (List.mem_cons_of_mem _ h₁)
      · rcases (by simpa [dset, h₀] using h : p = (k₀, v₀) ∨ p ∈ dset rest k v) with h₁ | h₁
        · exact Or.inl (by simp [h₁])
        · rcases ih h₁ with h₂ | h₂
          · exact Or.inl (List.mem_cons_of_mem _ h₂)
          · exact Or.inr h₂

theorem mem_dpop {K V : Type} [DecidableEq K] {d : List (K × V)} {k : K}
    {p : K × V} (h : p ∈ dpop d k) : p ∈ d := by
  induction d with
  | nil => simp [dpop] at h
  | cons q rest ih =>
      obtain ⟨k₀, v₀⟩ := q
      by_cases h₀ : k₀ = k
      · subst h₀
        exact List.mem_cons_of_mem _ (by simpa [dpop] using h)
      · rcases (by simpa [dpop, h₀] using h : p = (k₀, v₀) ∨ p ∈ dpop rest k) with h₁ | h₁
        · simp [h₁]
        · exact List.mem_cons_of_mem _ (ih h₁)

theorem dget_mem {K V : Type} [DecidableEq K] {d : List (K × V)} {k : K} {v : V}
    (h : dget d k = some v) : (k, v) ∈ d := by
  induction d with
  | nil => simp [dget] at h
  | cons q rest ih =>
      obtain ⟨k₀, v₀⟩ := q
      by_cases h₀ : k₀ = k
      · subst h₀
        simp [dget] at h
        simp [h]
      · simp [dget, h₀] at h
        exact List.mem_cons_of_mem _ (ih h)

theorem mem_dget {K V : Type} [DecidableEq K] {d : List (K × V)} {k : K} {v : V}
    (hd : distinctKeys d = true) (h : (k, v) ∈ d) : dget d k = some v := by
  induction d with
  | nil => simp at h
  | cons q rest ih =>
      obtain ⟨k₀, v₀⟩ := q
      simp only [distinctKeys, Bool.and_eq_true] at hd
      rcases List.mem_cons.mp h with h₁ | h₁
      · obtain ⟨hk, hv⟩ : k = k₀ ∧ v = v₀ := by
          simpa [Prod.ext_iff] using h₁
        subst hk
        subst hv
        simp [dget]
      · have hne : k₀ ≠ k := by
          intro hk
          subst hk
          have h2 := hd.1
          simp only [keyAbsent, List.all_eq_true, decide_eq_true_eq] at h2
          exact (h2 (k₀, v) h₁) rfl
        simp [dget, hne, ih hd.2 h₁]

theorem keyAbsent_dset {K V : Type} [DecidableEq K] {d : List (K × V)} {k k' : K}
    {v : V} (hne : k' ≠ k) (h : keyAbsent k' d = true) :
    keyAbsent k' (dset d k v) = true := by
  induction d with
  | nil => simp [dset, keyAbsent, Ne.symm hne]
  | cons q rest ih =>
      obtain ⟨k₀, v₀⟩ := q
      simp only [keyAbsent, List.all_cons, Bool.and_eq_true, decide_eq_true_eq] at h
      by_cases h₀ : k₀ = k
      · subst h₀
        simpa [dset, keyAbsent, List.all_eq_true, decide_eq_true_eq] using
          ⟨Ne.symm hne, by simpa [keyAbsent, List.all_eq_true] using h.2⟩
      · have := ih (by simpa [keyAbsent] using h.2)
        simpa [dset, h₀, keyAbsent, List.all_eq_true, decide_eq_true_eq] using
          ⟨h.1, by simpa [keyAbsent, List.all_eq_true] using this⟩

theorem keyAbsent_dpop {K V : Type} [DecidableEq K] {d : List (K × V)} {k k' : K}
    (h : keyAbsent k' d = true) : keyAbsent k' (dpop d k) = true := by
  induction d with
  | nil => simpa [dpop] using h
  | cons q rest ih =>
      obtain ⟨k₀, v₀⟩ := q
      simp only [keyAbsent, List.all_cons, Bool.and_eq_true, decide_eq_true_eq] at h
      by_cases h₀ : k₀ = k
      · subst h₀
        simpa [dpop, keyAbsent] using h.2
      · have := ih (by simpa [keyAbsent] using h.2)
        simpa [dpop, h₀, keyAbsent, List.all_eq_true, decide_eq_true_eq] using
          ⟨h.1, by simpa [keyAbsent, List.all_eq_true] using this⟩

theorem distinctKeys_dset {K V : Type} [DecidableEq K] {d : List (K × V)} {k : K}
    {v : V} (h : distinctKeys d = true) : distinctKeys (dset d k v) = true := by
  induction d with
  | nil => simp [dset, distinctKeys, keyAbsent]
  | cons q rest ih =>
      obtain ⟨k₀, v₀⟩ := q
      simp only [distinctKeys, Bool.and_eq_true] at h
      by_cases h₀ : k₀ = k
      · subst h₀
        simp [dset, distinctKeys, h.1, h.2]
      · simp only [dset, h₀, if_false, distinctKeys, Bool.and_eq_true]
        exact ⟨keyAbsent_dset h₀ h.1, ih h.2⟩

theorem distinctKeys_dpop {K V : Type} [DecidableEq K] {d : List (K × V)} {k : K}
    (h : distinctKeys d = true) : distinctKeys (dpop d k) = true := by
  induction d with
  | nil => simpa [dpop] using h
  | cons q rest ih =>
      obtain ⟨k₀, v₀⟩ := q
      simp only [distinctKeys, Bool.and_eq_true] at h
      by_cases h₀ : k₀ = k
      · subst h₀
        simpa [dpop] using h.2
      · simp only [dpop, h₀, if_false, distinctKeys, Bool.and_eq_true]
        exact ⟨keyAbsent_dpop h.1, ih h.2⟩

theorem dget_none_dpop {K V : Type} [DecidableEq K] {d : List (K × V)} {k k' : K}
    (h : dget d k = none) : dget (dpop d k') k = none := by
  have := dget_none_keyAbsent h
  exact keyAbsent_dget (keyAbsent_dpop this)

/-- Applying a key-wise transformation to every value of an association
list (used for the archetype-bucket sweeps in `register_component` and
`deregister_component`, which visit every bucket in place). -/
def mapBuckets {A B : Type} (f : A → B → B) (l : List (A × B)) : List (A × B) :=
  l.map fun a => (a.1, f a.1 a.2)

theorem dget_mapBuckets {A B : Type} [DecidableEq A] (f : A → B → B)
    (l : List (A × B)) (k : A) :
    dget (mapBuckets f l) k = (dget l k).map (f k) := by
  induction l with
  | nil => simp [mapBuckets, dget]
  | cons p rest ih =>
      by_cases h : p.1 = k
      · subst h
        simp [mapBuckets, dget]
      · simpa [mapBuckets, dget, h] using ih

theorem mem_mapBuckets {A B : Type} {f : A → B → B} {l : List (A × B)}
    {p : A × B} (h : p ∈ mapBuckets f l) :
    ∃ b, (p.1, b) ∈ l ∧ p.2 = f p.1 b := by
  induction l with
  | nil => simp [mapBuckets] at h
  | cons q rest ih =>
      rcases (by simpa [mapBuckets] using h : p = (q.1, f q.1 q.2) ∨ p ∈ mapBuckets f rest)
        with h₁ | h₁
      · exact ⟨q.2, by simp [h₁], by simp [h₁]⟩
      · obtain ⟨b, hb, he⟩ := ih h₁
        exact ⟨b, List.mem_cons_of_mem _ hb, he⟩

theorem keyAbsent_mapBuckets {A B : Type} [DecidableEq A] {f : A → B → B}
    {l : List (A × B)} {k : A} (h : keyAbsent k l = true) :
    keyAbsent k (mapBuckets f l) = true := by
  simp only [keyAbsent, List.all_eq_true, decide_eq_true_eq] at h ⊢
  intro p hp
  obtain ⟨b, hb, _⟩ := mem_mapBuckets hp
  exact h (p.1, b) hb

theorem distinctKeys_mapBuckets {A B : Type} [DecidableEq A] {f : A → B → B}
    {l : List (A × B)} (h : distinctKeys l = true) :
    distinctKeys (mapBuckets f l) = true := by
  induction l with
  | nil => simp [mapBuckets, distinctKeys]
  | cons q rest ih =>
      simp only [distinctKeys, Bool.and_eq_true] at h
      simp only [mapBuckets, List.map_cons, distinctKeys, Bool.and_eq_true]
      exact ⟨keyAbsent_mapBuckets h.1, ih h.2⟩

/-! ## Data model

Mirrors `src/src/ecs/ecs.py` (`EcsManager`) together with the slices of
`src/src/common.py` and `src/src/ecs/components.py` / `systems.py` that it
relies on: a component instance carries its class's `cid` and the `eid`
back-reference; a component class is identified by its `cid`; a system is
identified by its `sid` and declares `actions()`, a dict from action
(identified here by a numeric id standing in for the bound method) to a
tuple of component classes. -/

/-- A Python component instance.  `iid` stands in for the object identity,
`cid` for the class attribute assigned by `AutoId.component`, and `eid`
for the back-reference that `register_component` assigns. -/
structure Comp where
  iid : Nat
  cid : Nat
  eid : Option Nat := none
deriving DecidableEq, Repr

/-- A component class: what appears in an `actions()` archetype tuple.
Only its `cid` class attribute is ever read (`flatten_archetype`). -/
structure CompClass where
  cid : Nat
deriving DecidableEq, Repr

/-- A flattened archetype: the tuple of component-type ids used as the
key of `EcsManager.archetypes`. -/
abbrev Archetype := List Nat

/-- An archetype bucket: dict from entity id to the cached tuple of
component instances. -/
abbrev Bucket := List (Nat × List Comp)

/-- A system: `sid` is the `AutoId.system` class attribute (Python hashes
registered systems by it); `actions` is the dict returned by
`actions()`, with each action represented by a numeric id. -/
structure Sys where
  sid : Nat
  actions : List (Nat × List CompClass)
deriving DecidableEq, Repr

/-- The full `EcsManager` state. -/
structure EcsManager where
  entity_id : Nat := 0
  entities : List Nat := []
  systems : List (Nat × List (Nat × Archetype)) := []
  archetypes : List (Archetype × Bucket) := []
  components : List (Nat × List (Nat × Comp)) := []
  deltatime : Nat := 1
deriving DecidableEq, Repr

/-- `EcsManager.__init__`. -/
def initManager : EcsManager := {}

/-- `ValueError` raised for operations on an unknown entity. -/
inductive EcsError where
  | unknownEntity
deriving DecidableEq, Repr

instance {ε α : Type} [DecidableEq ε] [DecidableEq α] : DecidableEq (Except ε α)
  | Except.error x, Except.error y =>
      if h : x = y then Decidable.isTrue (congrArg Except.error h)
      else Decidable.isFalse fun hh => h (Except.error.inj hh)
  | Except.error _, Except.ok _ => Decidable.isFalse fun hh => Except.noConfusion hh
  | Except.ok _, Except.error _ => Decidable.isFalse fun hh => Except.noConfusion hh
  | Except.ok x, Except.ok y =>
      if h : x = y then Decidable.isTrue (congrArg Except.ok h)
      else Decidable.isFalse fun hh => h (Except.ok.inj hh)

/-- `flatten_archetype`: map a tuple of component classes to the tuple of
their `cid`s. -/
def flatten_archetype (archetype : List CompClass) : Archetype :=
  archetype.map fun c => c.cid

/-! ## Operations -/

/-- The loop body of `register_system`: fold over `system.actions()`,
recording each action's flattened archetype and creating any archetype
bucket not present yet (created empty). -/
def register_actions :
    List (Nat × List CompClass) →
    List (Nat × Archetype) × List (Archetype × Bucket) →
    List (Nat × Archetype) × List (Archetype × Bucket)
  | [], acc => acc
  | (aid, aar) :: rest, acc =>
      let ar := flatten_archetype aar
      let actionset := dset acc.1 aid ar
      let archs := if (dget acc.2 ar).isSome then acc.2 else dset acc.2 ar []
      register_actions rest (actionset, archs)

/-- `EcsManager.register_system`.  A no-op when the system is already
registered; otherwise records the action-to-archetype bindings and lazily
creates missing archetype buckets (empty). -/
def register_system (s : Sys) (m : EcsManager) : EcsManager :=
  if (dget m.systems s.sid).isSome then m
  else
    let acc := register_actions s.actions ([], m.archetypes)
    { m with systems := dset m.systems s.sid acc.1, archetypes := acc.2 }

/-- Whether some registered system has an action bound to the archetype
(the `for ... else` scan in `deregister_system`). -/
def archReferenced (systems : List (Nat × List (Nat × Archetype)))
    (ar : Archetype) : Bool :=
  systems.any fun p => p.2.any fun q => decide (q.2 = ar)

/-- The loop body of `deregister_system`: for each action of the popped
action set, drop its archetype when no remaining system references it. -/
def drop_stale (systems : List (Nat × List (Nat × Archetype))) :
    List (Nat × Archetype) → List (Archetype × Bucket) → List (Archetype × Bucket)
  | [], archs => archs
  | (_, ar) :: rest, archs =>
      drop_stale systems rest (if archReferenced systems ar then archs else dpop archs ar)

/-- `EcsManager.deregister_system`. -/
def deregister_system (s : Sys) (m : EcsManager) : EcsManager :=
  match dget m.systems s.sid with
  | none => m
  | some actionset =>
      let systems' := dpop m.systems s.sid
      { m with systems := systems',
               archetypes := drop_stale systems' actionset m.archetypes }

/-- `EcsManager.create_entity`: hand out the post-incremented id and add
it to the live set. -/
def create_entity (m : EcsManager) : Nat × EcsManager :=
  let entity := m.entity_id
  let entities' := if entity ∈ m.entities then m.entities else entity :: m.entities
  (entity, { m with entity_id := entity + 1, entities := entities' })

/-- The component instance currently registered in the component store for
the given type and entity (`self.components[component_type][entity]`
guarded by the two membership tests of `fetch_component`). -/
def storeGetC (comps : List (Nat × List (Nat × Comp))) (t e : Nat) : Option Comp :=
  match dget comps t with
  | none => none
  | some inner => dget inner e

/-- `storeGetC` on the manager's component store. -/
def storeGet (m : EcsManager) (t e : Nat) : Option Comp :=
  storeGetC m.components t e

/-- The entity holds a registered component of the given type. -/
def hasComponent (m : EcsManager) (e t : Nat) : Bool :=
  (storeGet m t e).isSome

/-- The inner loop of `register_component`'s archetype sweep: build the
tuple of the entity's components for each slot of the archetype, failing
(Python `break`) as soon as a slot's type is missing. -/
def build_values (comps : List (Nat × List (Nat × Comp))) (e : Nat) :
    Archetype → Option (List Comp)
  | [] => some []
  | t :: ts =>
      match storeGetC comps t e with
      | none => none
      | some c =>
          match build_values comps e ts with
          | none => none
          | some vs => some (c :: vs)

/-- One bucket's update in `register_component`'s archetype sweep: skip
entities already present, otherwise add the entity with its component
tuple when every slot resolves. -/
def update_bucket (comps : List (Nat × List (Nat × Comp))) (e : Nat)
    (ar : Archetype) (bucket : Bucket) : Bucket :=
  if (dget bucket e).isSome then bucket
  else
    match build_values comps e ar with
    | none => bucket
    | some vs => dset bucket e vs

/-- The full archetype sweep of `register_component` (fresh-insert path). -/
def update_buckets (comps : List (Nat × List (Nat × Comp))) (e : Nat)
    (archs : List (Archetype × Bucket)) : List (Archetype × Bucket) :=
  mapBuckets (update_bucket comps e) archs

/-- `EcsManager.register_component`.  Raises for an unknown entity;
otherwise sets the component's `eid` back-reference and either (fresh
insert) installs it and sweeps every archetype bucket, returning the new
component, or (replacement) swaps it in and returns the old instance
without touching any bucket. -/
def register_component (entity : Nat) (c : Comp) (m : EcsManager) :
    Except EcsError Comp × EcsManager :=
  if entity ∈ m.entities then
    let component : Comp := { c with eid := some entity }
    let ct := c.cid
    let comps0 := if (dget m.components ct).isSome then m.components
                  else dset m.components ct []
    let inner := (dget comps0 ct).getD []
    match dget inner entity with
    | none =>
        let comps1 := dset comps0 ct (dset inner entity component)
        (Except.ok component,
          { m with components := comps1,
                   archetypes := update_buckets comps1 entity m.archetypes })
    | some old_component =>
        let comps1 := dset comps0 ct (dset (dpop inner entity) entity component)
        (Except.ok old_component, { m with components := comps1 })
  else (Except.error EcsError.unknownEntity, m)

/-- `EcsManager.fetch_component`. -/
def fetch_component (entity : Nat) (component_type : Nat) (m : EcsManager) :
    Except EcsError (Option Comp) × EcsManager :=
  if entity ∈ m.entities then (Except.ok (storeGet m component_type entity), m)
  else (Except.error EcsError.unknownEntity, m)

/-- One bucket's update in `deregister_component`: pop the entity when the
archetype's tuple contains the deregistered type and the entity is
present. -/
def prune_bucket (component_type entity : Nat) (ar : Archetype)
    (bucket : Bucket) : Bucket :=
  if component_type ∈ ar ∧ (dget bucket entity).isSome then dpop bucket entity
  else bucket

/-- The archetype sweep of `deregister_component`. -/
def prune_buckets (component_type entity : Nat)
    (archs : List (Archetype × Bucket)) : List (Archetype × Bucket) :=
  mapBuckets (prune_bucket component_type entity) archs

/-- `EcsManager.deregister_component`.  Raises for an unknown entity; when
the component is present, prunes the entity from every bucket whose
archetype contains the type and removes and returns the component;
otherwise returns `None` with no side effects. -/
def deregister_component (entity : Nat) (component_type : Nat) (m : EcsManager) :
    Except EcsError (Option Comp) × EcsManager :=
  if entity ∈ m.entities then
    match storeGet m component_type entity with
    | some comp =>
        let inner := (dget m.components component_type).getD []
        (Except.ok (some comp),
          { m with archetypes := prune_buckets component_type entity m.archetypes,
                   components := dset m.components component_type (dpop inner entity) })
    | none => (Except.ok none, m)
  else (Except.error EcsError.unknownEntity, m)

/-- The `registered_components` list collected by `destroy_entity`: for
each component-type inner map (in dict order), the entity's component when
present. -/
def held_components (m : EcsManager) (entity : Nat) : List Comp :=
  m.components.filterMap fun p => dget p.2 entity

/-- `EcsManager.destroy_entity`.  Raises for an unknown entity; otherwise
deregisters every component the entity holds, drops it from the live set,
and returns the collected component list. -/
def destroy_entity (entity : Nat) (m : EcsManager) :
    Except EcsError (List Comp) × EcsManager :=
  if entity ∈ m.entities then
    let registered := held_components m entity
    let m' := registered.foldl (fun acc c => (deregister_component entity c.cid acc).2) m
    (Except.ok registered,
      { m' with entities := m'.entities.filter fun x => decide (x ≠ entity) })
  else (Except.error EcsError.unknownEntity, m)

/-- `EcsManager.fetch_archetype`: the bucket's component tuples, or `None`
with a warning for an archetype no system registered. -/
def fetch_archetype (archetype : Archetype) (m : EcsManager) :
    Option (List (List Comp)) × EcsManager :=
  match dget m.archetypes archetype with
  | none => (none, m)
  | some bucket => (some (bucket.map Prod.snd), m)

/-- `EcsManager.get_deltatime`. -/
def get_deltatime (m : EcsManager) : Nat :=
  m.deltatime

/-- `EcsManager.pause`. -/
def pause (m : EcsManager) : EcsManager :=
  { m with deltatime := 0 }

/-- `EcsManager.unpause`. -/
def unpause (m : EcsManager) : EcsManager :=
  { m with deltatime := 1 }

/-! ## Reachability -/

/-- One public operation on the manager, with its arguments. -/
inductive Op where
  | register_system (s : Sys)
  | deregister_system (s : Sys)
  | create_entity
  | register_component (entity : Nat) (c : Comp)
  | deregister_component (entity : Nat) (component_type : Nat)
  | destroy_entity (entity : Nat)
  | fetch_component (entity : Nat) (component_type : Nat)
  | fetch_archetype (archetype : Archetype)
  | pause
  | unpause
deriving DecidableEq, Repr

/-- The state reached after one operation (for an operation that raises,
the state as the exception propagates). -/
def applyOp : Op → EcsManager → EcsManager
  | .register_system s, m => register_system s m
  | .deregister_system s, m => deregister_system s m
  | .create_entity, m => (create_entity m).2
  | .register_component e c, m => (register_component e c m).2
  | .deregister_component e t, m => (deregister_component e t m).2
  | .destroy_entity e, m => (destroy_entity e m).2
  | .fetch_component e t, m => (fetch_component e t m).2
  | .fetch_archetype ar, m => (fetch_archetype ar m).2
  | .pause, m => pause m
  | .unpause, m => unpause m

/-- Manager states reachable from `__init__` through the public API. -/
inductive Reachable : EcsManager → Prop where
  | init : Reachable initManager
  | step (op : Op) {m : EcsManager} : Reachable m → Reachable (applyOp op m)

/-- The entity ids returned by the `create_entity` calls of an operation
sequence, in order. -/
def createdIds : List Op → EcsManager → List Nat
  | [], _ => []
  | op :: rest, m =>
      match op with
      | .create_entity => (create_entity m).1 :: createdIds rest (applyOp op m)
      | _ => createdIds rest (applyOp op m)

/-! ## The frame loop (`process`)

`process` loops forever computing a wall-clock delta per tick, scaled by
the manager's time factor, and runs every action bound to every currently
indexed archetype, returning as soon as any action yields
`EcsContinuation.Stop`.  Wall-clock readings (`time.time()`) are supplied
as a stream of integers, and the unbounded `while True` is given fuel (a
tick budget): the claims about the loop concern what happens up to the
first `Stop`, which is insensitive to the remaining fuel.  Actions are
Python callables mutating the manager; they are modelled as functions
from elapsed time, manager and component-tuple list to a continuation
signal and an updated manager, named by the numeric action ids stored in
the system registry. -/

/-- `EcsContinuation` from `src/src/common.py`. -/
inductive EcsContinuation where
  | Stop
  | Continue
deriving DecidableEq, Repr

/-- A system action body: `(dt, manager, components) → continuation`,
together with the manager as mutated by the call. -/
abbrev ActionFn := Int → EcsManager → List (List Comp) → EcsContinuation × EcsManager

/-- One action invocation: the archetype being iterated, the system id,
and the action id. -/
abbrev Invocation := Archetype × Nat × Nat

/-- The invocation sequence of one tick: for every archetype (in index
order), for every registered system, every action whose bound archetype
equals the current archetype. -/
def tick_invocations (m : EcsManager) : List Invocation :=
  m.archetypes.flatMap fun a =>
    m.systems.flatMap fun s =>
      (s.2.filter fun q => decide (q.2 = a.1)).map fun q => (a.1, s.1, q.1)

/-- Run the invocations of one tick in order, stopping at the first
action that returns `Stop`.  Returns the trace of invocations actually
performed, the continuation signal, and the final manager.  Component
tuples are re-read from the current manager at each invocation, matching
the live `component_sets.values()` read in the Python loop. -/
def run_tick (acts : Nat → ActionFn) (dt : Int) :
    List Invocation → EcsManager → List Invocation × EcsContinuation × EcsManager
  | [], m => ([], EcsContinuation.Continue, m)
  | inv :: rest, m =>
      let comps := ((dget m.archetypes inv.1).getD []).map Prod.snd
      match acts inv.2.2 dt m comps with
      | (EcsContinuation.Stop, m') => ([inv], EcsContinuation.Stop, m')
      | (EcsContinuation.Continue, m') =>
          let r := run_tick acts dt rest m'
          (inv :: r.1, r.2.1, r.2.2)

/-- The `while True` loop of `process`: `last` is the previous tick's
wall-clock reading, `n` indexes the next `time.time()` call, and `fuel`
bounds the number of ticks examined. -/
def process_go (acts : Nat → ActionFn) (times : Nat → Int) :
    Nat → Int → Nat → EcsManager → List Invocation × EcsManager
  | 0, _, _, m => ([], m)
  | fuel + 1, last, n, m =>
      let cur := times n
      let dt := (cur - last) * (m.deltatime : Int)
      match run_tick acts dt (tick_invocations m) m with
      | (tr, EcsContinuation.Stop, m') => (tr, m')
      | (tr, EcsContinuation.Continue, m') =>
          let r := process_go acts times fuel cur (n + 1) m'
          (tr ++ r.1, r.2)

/-- Module-level `process`: warn-and-return when no system is registered,
otherwise run the frame loop. -/
def process (acts : Nat → ActionFn) (times : Nat → Int) (fuel : Nat)
    (m : EcsManager) : List Invocation × EcsManager :=
  if m.systems.length = 0 then ([], m)
  else process_go acts times fuel (times 0) 1 m

/-! ## Well-formedness

The state invariant maintained by every public operation: dict keys are
unique at every level; every bucket entry's entity holds a registered
component of every type in the bucket's archetype and (for a nonempty
archetype) is live; every stored component instance sits under its own
`cid` and carries the back-reference to its entity. -/

/-- Condition on one bucket entry: the entity holds a registered component
of every type of the archetype, and is live when the archetype tuple is
nonempty. -/
def entryOK (comps : List (Nat × List (Nat × Comp))) (ents : List Nat)
    (ar : Archetype) (e : Nat) : Prop :=
  (∀ t ∈ ar, (storeGetC comps t e).isSome = true) ∧ (ar ≠ [] → e ∈ ents)

/-- The manager invariant, as a proposition. -/
structure WF (m : EcsManager) : Prop where
  compKeys : distinctKeys m.components = true
  archKeys : distinctKeys m.archetypes = true
  sysKeys : distinctKeys m.systems = true
  buckets : ∀ p ∈ m.archetypes, distinctKeys p.2 = true ∧
    ∀ q ∈ p.2, entryOK m.components m.entities p.1 q.1
  store : ∀ p ∈ m.components, distinctKeys p.2 = true ∧
    ∀ q ∈ p.2, q.2.cid = p.1 ∧ q.2.eid = some q.1

/-- The manager invariant, as an executable check. -/
def wf (m : EcsManager) : Bool :=
  distinctKeys m.components && distinctKeys m.archetypes && distinctKeys m.systems &&
  (m.archetypes.all fun p => distinctKeys p.2 &&
    p.2.all fun q => (p.1.all fun t => (storeGetC m.components t q.1).isSome) &&
      (decide (p.1 = []) || decide (q.1 ∈ m.entities))) &&
  (m.components.all fun p => distinctKeys p.2 &&
    p.2.all fun q => decide (q.2.cid = p.1) && decide (q.2.eid = some q.1))

theorem wf_iff (m : EcsManager) : wf m = true ↔ WF m := by
  simp only [wf, Bool.and_eq_true, List.all_eq_true, Bool.or_eq_true, decide_eq_true_eq]
  constructor
  · rintro ⟨⟨⟨⟨h1, h2⟩, h3⟩, h4⟩, h5⟩
    refine ⟨h1, h2, h3, fun p hp => ?_, fun p hp => ?_⟩
    · obtain ⟨hk, hq⟩ := h4 p hp
      exact ⟨hk, fun q hq' =>
        ⟨fun t ht => (hq q hq').1 t ht, fun hne => ((hq q hq').2).resolve_left hne⟩⟩
    · obtain ⟨hk, hq⟩ := h5 p hp
      exact ⟨hk, fun q hq' => hq q hq'⟩
  · intro h
    refine ⟨⟨⟨⟨h.compKeys, h.archKeys⟩, h.sysKeys⟩, fun p hp => ?_⟩, fun p hp => ?_⟩
    · obtain ⟨hk, hq⟩ := h.buckets p hp
      refine ⟨hk, fun q hq' => ⟨fun t ht => (hq q hq').1 t ht, ?_⟩⟩
      by_cases he : p.1 = []
      · exact Or.inl he
      · exact Or.inr ((hq q hq').2 he)
    · obtain ⟨hk, hq⟩ := h.store p hp
      exact ⟨hk, fun q hq' => hq q hq'⟩

theorem WF_initManager : WF initManager := by
  constructor <;> simp [initManager, distinctKeys]

theorem WF_create_entity {m : EcsManager} (h : WF m) : WF (create_entity m).2 := by
  obtain ⟨h1, h2, h3, h4, h5⟩ := h
  refine ⟨h1, h2, h3, fun p hp => ?_, h5⟩
  obtain ⟨hk, hq⟩ := h4 p hp
  refine ⟨hk, fun q hq' => ⟨(hq q hq').1, fun hne => ?_⟩⟩
  have := (hq q hq').2 hne
  simp only [create_entity]
  by_cases he : m.entity_id ∈ m.entities <;> simp [he, this]

theorem WF_pause {m : EcsManager} (h : WF m) : WF (pause m) := by
  obtain ⟨h1, h2, h3, h4, h5⟩ := h
  exact ⟨h1, h2, h3, h4, h5⟩

theorem WF_unpause {m : EcsManager} (h : WF m) : WF (unpause m) := by
  obtain ⟨h1, h2, h3, h4, h5⟩ := h
  exact ⟨h1, h2, h3, h4, h5⟩

theorem fetch_component_state (entity component_type : Nat) (m : EcsManager) :
    (fetch_component entity component_type m).2 = m := by
  by_cases h : entity ∈ m.entities <;> simp [fetch_component, h]

theorem fetch_archetype_state (archetype : Archetype) (m : EcsManager) :
    (fetch_archetype archetype m).2 = m := by
  cases h : dget m.archetypes archetype <;> simp [fetch_archetype, h]

theorem register_actions_archKeys (actions : List (Nat × List CompClass))
    (acc : List (Nat × Archetype) × List (Archetype × Bucket))
    (h : distinctKeys acc.2 = true) :
    distinctKeys (register_actions actions acc).2 = true := by
  induction actions generalizing acc with
  | nil => simpa [register_actions] using h
  | cons a rest ih =>
      obtain ⟨aid, aar⟩ := a
      simp only [register_actions]
      apply ih
      by_cases hs : (dget acc.2 (flatten_archetype aar)).isSome <;>
        simp [hs, h, distinctKeys_dset]

theorem register_actions_mem (actions : List (Nat × List CompClass))
    (acc : List (Nat × Archetype) × List (Archetype × Bucket))
    {p : Archetype × Bucket} (h : p ∈ (register_actions actions acc).2) :
    p ∈ acc.2 ∨ p.2 = [] := by
  induction actions generalizing acc with
  | nil => exact Or.inl (by simpa [register_actions] using h)
  | cons a rest ih =>
      obtain ⟨aid, aar⟩ := a
      simp only [register_actions] at h
      rcases ih _ h with h₁ | h₁
      · by_cases hs : (dget acc.2 (flatten_archetype aar)).isSome
        · simp only [hs, if_true] at h₁
          exact Or.inl h₁
        · simp only [hs, if_false] at h₁
          rcases mem_dset h₁ with h₂ | h₂
          · exact Or.inl h₂
          · exact Or.inr (by simp [h₂])
      · exact Or.inr h₁

theorem WF_register_system {m : EcsManager} (s : Sys) (h : WF m) :
    WF (register_system s m) := by
  unfold register_system
  by_cases hs : (dget m.systems s.sid).isSome
  · simpa [hs] using h
  · obtain ⟨h1, h2, h3, h4, h5⟩ := h
    simp only [hs, if_false]
    refine ⟨h1, register_actions_archKeys _ _ h2, distinctKeys_dset h3,
      fun p hp => ?_, h5⟩
    rcases register_actions_mem _ _ hp with h₁ | h₁
    · exact h4 p h₁
    · simp [h₁, distinctKeys]

theorem drop_stale_archKeys (systems : List (Nat × List (Nat × Archetype)))
    (actionset : List (Nat × Archetype)) (archs : List (Archetype × Bucket))
    (h : distinctKeys archs = true) :
    distinctKeys (drop_stale systems actionset archs) = true := by
  induction actionset generalizing archs with
  | nil => simpa [drop_stale] using h
  | cons a rest ih =>
      obtain ⟨aid, ar⟩ := a
      simp only [drop_stale]
      apply ih
      by_cases hr : archReferenced systems ar <;> simp [hr, h, distinctKeys_dpop]

theorem drop_stale_mem (systems : List (Nat × List (Nat × Archetype)))
    (actionset : List (Nat × Archetype)) (archs : List (Archetype × Bucket))
    {p : Archetype × Bucket} (h : p ∈ drop_stale systems actionset archs) :
    p ∈ archs := by
  induction actionset generalizing archs with
  | nil => simpa [drop_stale] using h
  | cons a rest ih =>
      obtain ⟨aid, ar⟩ := a
      simp only [drop_stale] at h
      have := ih _ h
      by_cases hr : archReferenced systems ar
      · simpa [hr] using this
      · simp only [hr, if_false] at this
        exact mem_dpop this

theorem build_values_isSome {comps : List (Nat × List (Nat × Comp))} {e : Nat}
    {ar : Archetype} {vs : List Comp} (h : build_values comps e ar = some vs) :
    ∀ t ∈ ar, (storeGetC comps t e).isSome = true := by
  induction ar generalizing vs with
  | nil => simp
  | cons t ts ih =>
      intro t' ht'
      cases hs : storeGetC comps t e with
      | none => simp [build_values, hs] at h
      | some c0 =>
          cases hb : build_values comps e ts with
          | none => simp [build_values, hs, hb] at h
          | some vs' =>
              rcases List.mem_cons.mp ht' with h₁ | h₁
              · subst h₁
                simp [hs]
              · exact ih hb t' h₁

/-- Branch equation for `register_component`: fresh-insert path. -/
theorem register_component_fresh (entity : Nat) (c : Comp) (m : EcsManager)
    (he : entity ∈ m.entities)
    (comps0 : List (Nat × List (Nat × Comp)))
    (hcomps0 : comps0 =
      if (dget m.components c.cid).isSome then m.components
      else dset m.components c.cid [])
    (inner : List (Nat × Comp)) (hinner : inner = (dget comps0 c.cid).getD [])
    (hold : dget inner entity = none) :
    register_component entity c m =
      (Except.ok ({ c with eid := some entity } : Comp),
        { m with
            components := dset comps0 c.cid (dset inner entity { c with eid := some entity }),
            archetypes :=
              update_buckets (dset comps0 c.cid (dset inner entity { c with eid := some entity }))
                entity m.archetypes }) := by
  subst hcomps0
  subst hinner
  simp only [register_component, he, if_true]
  rw [hold]

/-- Branch equation for `register_component`: replacement path. -/
theorem register_component_replace (entity : Nat) (c oldc : Comp) (m : EcsManager)
    (he : entity ∈ m.entities)
    (comps0 : List (Nat × List (Nat × Comp)))
    (hcomps0 : comps0 =
      if (dget m.components c.cid).isSome then m.components
      else dset m.components c.cid [])
    (inner : List (Nat × Comp)) (hinner : inner = (dget comps0 c.cid).getD [])
    (hold : dget inner entity = some oldc) :
    register_component entity c m =
      (Except.ok oldc,
        { m with
            components :=
              dset comps0 c.cid (dset (dpop inner entity) entity { c with eid := some entity }) }) := by
  subst hcomps0
  subst hinner
  simp only [register_component, he, if_true]
  rw [hold]

theorem update_bucket_cases (comps : List (Nat × List (Nat × Comp))) (e : Nat)
    (ar : Archetype) (b : Bucket) :
    update_bucket comps e ar b = b ∨
      ((dget b e).isSome = false ∧
        ∃ vs, build_values comps e ar = some vs ∧
          update_bucket comps e ar b = dset b e vs) := by
  unfold update_bucket
  by_cases hskip : (dget b e).isSome
  · rw [if_pos hskip]
    exact Or.inl rfl
  · rw [if_neg hskip]
    cases hbv : build_values comps e ar with
    | none => exact Or.inl rfl
    | some vs =>
        exact Or.inr ⟨by simpa using hskip, vs, rfl, rfl⟩

theorem WF_register_component {m : EcsManager} (entity : Nat) (c : Comp)
    (h : WF m) : WF (register_component entity c m).2 := by
  by_cases he : entity ∈ m.entities
  case neg => simpa [register_component, he] using h
  case pos =>
    have hc0 :
        dget (if (dget m.components c.cid).isSome then m.components
              else dset m.components c.cid []) c.cid =
          some ((dget (if (dget m.components c.cid).isSome then m.components
              else dset m.components c.cid []) c.cid).getD []) ∧
        distinctKeys (if (dget m.components c.cid).isSome then m.components
              else dset m.components c.cid []) = true ∧
        (∀ t, t ≠ c.cid →
          dget (if (dget m.components c.cid).isSome then m.components
              else dset m.components c.cid []) t = dget m.components t) ∧
        (∀ p ∈ (if (dget m.components c.cid).isSome then m.components
              else dset m.components c.cid []),
          distinctKeys p.2 = true ∧ ∀ q ∈ p.2, q.2.cid = p.1 ∧ q.2.eid = some q.1) ∧
        (∀ i0, dget m.components c.cid = some i0 →
          (dget (if (dget m.components c.cid).isSome then m.components
              else dset m.components c.cid []) c.cid).getD [] = i0) := by
      cases hmc : dget m.components c.cid with
      | none =>
          simp only [Option.isSome_none, Bool.false_eq_true, if_false]
          refine ⟨?_, distinctKeys_dset h.compKeys, ?_, ?_, ?_⟩
          · rw [dget_dset]
            simp
          · intro t ht
            rw [dget_dset, if_neg (Ne.symm ht)]
          · intro p hp
            rcases mem_dset hp with h₁ | h₁
            · exact h.store p h₁
            · simp [h₁, distinctKeys]
          · intro i0 h₁
            simp at h₁
      | some inner₀ =>
          simp only [Option.isSome_some, if_true]
          refine ⟨?_, h.compKeys, ?_, h.store, ?_⟩
          · rw [hmc]
            simp
          · simp
          · intro i0 h₁
            injection h₁ with h₂
            rw [hmc]
            simp [h₂]
    obtain ⟨hin, hkeys0, hne0, hstore0, hinner0⟩ := hc0
    set comps0 := (if (dget m.components c.cid).isSome then m.components
      else dset m.components c.cid []) with hcomps0
    set inner := (dget comps0 c.cid).getD [] with hinner
    have hmem_inner : (c.cid, inner) ∈ comps0 := dget_mem hin
    have hinner_keys : distinctKeys inner = true := (hstore0 _ hmem_inner).1
    have hinner_store : ∀ q ∈ inner, q.2.cid = c.cid ∧ q.2.eid = some q.1 :=
      (hstore0 _ hmem_inner).2
    cases hold : dget inner entity with
    | none =>
        rw [register_component_fresh entity c m he comps0 hcomps0 inner hinner hold]
        set component : Comp := { c with eid := some entity } with hcomp
        set comps1 := dset comps0 c.cid (dset inner entity component) with hcomps1
        have hmono : ∀ t e', (storeGetC m.components t e').isSome = true →
            (storeGetC comps1 t e').isSome = true := by
          intro t e' ht
          cases hmc : dget m.components t with
          | none => simp [storeGetC, hmc] at ht
          | some i0 =>
              simp only [storeGetC, hmc] at ht
              by_cases htc : t = c.cid
              · have hi : inner = i0 := hinner0 i0 (htc ▸ hmc)
                have hc1t : dget comps1 t = some (dset inner entity component) := by
                  rw [hcomps1, dget_dset, if_pos htc.symm]
                simp only [storeGetC, hc1t]
                rw [dget_dset]
                by_cases hee : entity = e'
                · simp [hee]
                · simp only [if_neg hee]
                  rw [hi]
                  exact ht
              · have hc1t : dget comps1 t = dget m.components t := by
                  rw [hcomps1, dget_dset, if_neg (Ne.symm htc), hne0 t htc]
                simp only [storeGetC, hc1t, hmc]
                exact ht
        constructor
        · exact distinctKeys_dset hkeys0
        · exact distinctKeys_mapBuckets h.archKeys
        · exact h.sysKeys
        · intro p hp
          have hp' : p ∈ mapBuckets (update_bucket comps1 entity) m.archetypes := hp
          obtain ⟨b, hb, hpb⟩ := mem_mapBuckets hp'
          obtain ⟨hbk, hbe⟩ := h.buckets (p.1, b) hb
          rcases update_bucket_cases comps1 entity p.1 b with hcase | ⟨hnotin, vs, hbv, hcase⟩
          · rw [hcase] at hpb
            rw [hpb]
            refine ⟨hbk, fun q hq => ?_⟩
            obtain ⟨h₁, h₂⟩ := hbe q hq
            exact ⟨fun t ht => hmono t q.1 (h₁ t ht), h₂⟩
          · rw [hcase] at hpb
            rw [hpb]
            refine ⟨distinctKeys_dset hbk, fun q hq => ?_⟩
            rcases mem_dset hq with h₁ | h₁
            · obtain ⟨h₂, h₃⟩ := hbe q h₁
              exact ⟨fun t ht => hmono t q.1 (h₂ t ht), h₃⟩
            · subst h₁
              exact ⟨fun t ht => build_values_isSome hbv t ht, fun _ => he⟩
        · intro p hp
          rcases mem_dset hp with h₁ | h₁
          · exact hstore0 p h₁
          · subst h₁
            refine ⟨distinctKeys_dset hinner_keys, fun q hq => ?_⟩
            rcases mem_dset hq with h₂ | h₂
            · exact hinner_store q h₂
            · subst h₂
              exact ⟨rfl, rfl⟩
    | some oldc =>
        rw [register_component_replace entity c oldc m he comps0 hcomps0 inner hinner hold]
        set component : Comp := { c with eid := some entity } with hcomp
        set comps1 := dset comps0 c.cid (dset (dpop inner entity) entity component) with hcomps1
        have hmono : ∀ t e', (storeGetC m.components t e').isSome = true →
            (storeGetC comps1 t e').isSome = true := by
          intro t e' ht
          cases hmc : dget m.components t with
          | none => simp [storeGetC, hmc] at ht
          | some i0 =>
              simp only [storeGetC, hmc] at ht
              by_cases htc : t = c.cid
              · have hi : inner = i0 := hinner0 i0 (htc ▸ hmc)
                have hc1t : dget comps1 t = some (dset (dpop inner entity) entity component) := by
                  rw [hcomps1, dget_dset, if_pos htc.symm]
                simp only [storeGetC, hc1t]
                rw [dget_dset]
                by_cases hee : entity = e'
                · simp [hee]
                · simp only [if_neg hee]
                  rw [dget_dpop_ne _ _ _ hee, hi]
                  exact ht
              · have hc1t : dget comps1 t = dget m.components t := by
                  rw [hcomps1, dget_dset, if_neg (Ne.symm htc), hne0 t htc]
                simp only [storeGetC, hc1t, hmc]
                exact ht
        constructor
        · exact distinctKeys_dset hkeys0
        · exact h.archKeys
        · exact h.sysKeys
        · intro p hp
          obtain ⟨hbk, hbe⟩ := h.buckets p hp
          refine ⟨hbk, fun q hq => ?_⟩
          obtain ⟨h₁, h₂⟩ := hbe q hq
          exact ⟨fun t ht => hmono t q.1 (h₁ t ht), h₂⟩
        · intro p hp
          rcases mem_dset hp with h₁ | h₁
          · exact hstore0 p h₁
          · subst h₁
            refine ⟨distinctKeys_dset (distinctKeys_dpop hinner_keys), fun q hq => ?_⟩
            rcases mem_dset hq with h₂ | h₂
            · exact hinner_store q (mem_dpop h₂)
            · subst h₂
              exact ⟨rfl, rfl⟩


/-- Branch equation for `deregister_component`: the component is present,
so buckets are pruned and the component popped. -/
theorem deregister_component_active (entity component_type : Nat) (m : EcsManager)
    (comp : Comp) (he : entity ∈ m.entities)
    (hc : storeGet m component_type entity = some comp) :
    deregister_component entity component_type m =
      (Except.ok (some comp),
        { m with
            archetypes := prune_buckets component_type entity m.archetypes,
            components := dset m.components component_type
              (dpop ((dget m.components component_type).getD []) entity) }) := by
  simp only [deregister_component, he, if_true]
  rw [hc]

theorem WF_deregister_component {m : EcsManager} (entity component_type : Nat)
    (h : WF m) : WF (deregister_component entity component_type m).2 := by
  by_cases he : entity ∈ m.entities
  case neg => simpa [deregister_component, he] using h
  case pos =>
    cases hc : storeGet m component_type entity with
    | none => simpa [deregister_component, he, hc] using h
    | some comp =>
        rw [deregister_component_active entity component_type m comp he hc]
        have hint : dget m.components component_type =
            some ((dget m.components component_type).getD []) := by
          cases hmc : dget m.components component_type with
          | none =>
              rw [storeGet, storeGetC, hmc] at hc
              exact absurd hc (by simp)
          | some inner₀ => simp
        set inner := (dget m.components component_type).getD [] with hinner
        have hmem_inner : (component_type, inner) ∈ m.components := dget_mem hint
        have hinner_keys : distinctKeys inner = true := (h.store _ hmem_inner).1
        have hinner_store : ∀ q ∈ inner, q.2.cid = component_type ∧ q.2.eid = some q.1 :=
          (h.store _ hmem_inner).2
        have hmono : ∀ t e', (e' = entity → t ≠ component_type) →
            (storeGetC m.components t e').isSome = true →
            (storeGetC (dset m.components component_type (dpop inner entity)) t e').isSome
              = true := by
          intro t e' hcond ht
          by_cases htc : t = component_type
          · have hee : e' ≠ entity := fun hh => (hcond hh) htc
            have hc1t : dget (dset m.components component_type (dpop inner entity)) t =
                some (dpop inner entity) := by
              rw [dget_dset, if_pos htc.symm]
            simp only [storeGetC, hc1t]
            rw [dget_dpop_ne _ _ _ (Ne.symm hee)]
            have hmt : dget m.components t = some inner := htc ▸ hint
            simpa [storeGetC, hmt] using ht
          · have hc1t : dget (dset m.components component_type (dpop inner entity)) t =
                dget m.components t := by
              rw [dget_dset, if_neg (Ne.symm htc)]
            simpa [storeGetC, hc1t] using ht
        constructor
        · exact distinctKeys_dset h.compKeys
        · exact distinctKeys_mapBuckets h.archKeys
        · exact h.sysKeys
        · intro p hp
          have hp' : p ∈ mapBuckets (prune_bucket component_type entity) m.archetypes := hp
          obtain ⟨b, hb, hpb⟩ := mem_mapBuckets hp'
          obtain ⟨hbk, hbe⟩ := h.buckets (p.1, b) hb
          rw [prune_bucket] at hpb
          by_cases hcondb : component_type ∈ p.1 ∧ (dget b entity).isSome = true
          · rw [if_pos hcondb] at hpb
            rw [hpb]
            refine ⟨distinctKeys_dpop hbk, fun q hq => ?_⟩
            have hqb : q ∈ b := mem_dpop hq
            have hqe : q.1 ≠ entity := by
              intro hh
              have hd : dget (dpop b entity) q.1 = some q.2 :=
                mem_dget (distinctKeys_dpop hbk) hq
              rw [hh, dget_dpop_self hbk] at hd
              exact absurd hd (by simp)
            obtain ⟨h₁, h₂⟩ := hbe q hqb
            exact ⟨fun t ht => hmono t q.1 (fun hh => absurd hh hqe) (h₁ t ht), h₂⟩
          · rw [if_neg hcondb] at hpb
            rw [hpb]
            refine ⟨hbk, fun q hq => ?_⟩
            obtain ⟨h₁, h₂⟩ := hbe q hq
            refine ⟨fun t ht => hmono t q.1 ?_ (h₁ t ht), h₂⟩
            intro hq1 htc
            have hsome : dget b q.1 = some q.2 := mem_dget hbk hq
            rw [hq1] at hsome
            exact hcondb ⟨htc ▸ ht, by simp [hsome]⟩
        · intro p hp
          rcases mem_dset hp with h₁ | h₁
          · exact h.store p h₁
          · subst h₁
            refine ⟨distinctKeys_dpop hinner_keys, fun q hq => ?_⟩
            exact hinner_store q (mem_dpop hq)

theorem storeGet_some_iff {m : EcsManager} {t e : Nat} {c : Comp} :
    storeGet m t e = some c ↔
      ∃ inner, dget m.components t = some inner ∧ dget inner e = some c := by
  unfold storeGet storeGetC
  cases hmc : dget m.components t with
  | none => simp
  | some inner => simp

theorem storeGet_isSome_iff {m : EcsManager} {t e : Nat} :
    (storeGet m t e).isSome = true ↔
      ∃ inner, dget m.components t = some inner ∧ (dget inner e).isSome = true := by
  unfold storeGet storeGetC
  cases hmc : dget m.components t with
  | none => simp
  | some inner => simp

/-- A stored component's `cid` agrees with the key it is stored under, and
its `eid` back-reference points at its entity. -/
theorem storeGet_cid {m : EcsManager} {t e : Nat} {c : Comp} (hwf : WF m)
    (h : storeGet m t e = some c) : c.cid = t ∧ c.eid = some e := by
  obtain ⟨inner, h₁, h₂⟩ := storeGet_some_iff.mp h
  exact (hwf.store (t, inner) (dget_mem h₁)).2 (e, c) (dget_mem h₂)

theorem storeGet_mem_held {m : EcsManager} {t entity : Nat} {c : Comp}
    (h : storeGet m t entity = some c) : c ∈ held_components m entity := by
  obtain ⟨inner, h₁, h₂⟩ := storeGet_some_iff.mp h
  exact List.mem_filterMap.mpr ⟨(t, inner), dget_mem h₁, h₂⟩

theorem held_components_spec {m : EcsManager} {entity : Nat} {c : Comp}
    (hwf : WF m) (h : c ∈ held_components m entity) :
    storeGet m c.cid entity = some c := by
  obtain ⟨p, hp, hc⟩ := List.mem_filterMap.mp h
  have hcid : c.cid = p.1 := ((hwf.store p hp).2 (entity, c) (dget_mem hc)).1
  rw [hcid]
  exact storeGet_some_iff.mpr ⟨p.2, mem_dget hwf.compKeys hp, hc⟩

theorem held_components_pairwise {m : EcsManager} (entity : Nat) (hwf : WF m) :
    List.Pairwise (fun a b => a.cid ≠ b.cid) (held_components m entity) := by
  have hgen : ∀ (l : List (Nat × List (Nat × Comp))), distinctKeys l = true →
      (∀ p ∈ l, ∀ q ∈ p.2, q.2.cid = p.1) →
      List.Pairwise (fun a b => a.cid ≠ b.cid)
        (l.filterMap fun p => dget p.2 entity) := by
    intro l
    induction l with
    | nil => simp
    | cons p rest ih =>
        intro hd hs
        simp only [distinctKeys, Bool.and_eq_true] at hd
        have ihr := ih hd.2 fun p' hp' => hs p' (List.mem_cons_of_mem _ hp')
        cases hc : dget p.2 entity with
        | none => simpa [List.filterMap_cons, hc] using ihr
        | some c =>
            simp only [List.filterMap_cons, hc]
            refine List.Pairwise.cons ?_ ihr
            intro b hb
            obtain ⟨p', hp', hb'⟩ := List.mem_filterMap.mp hb
            have hcid : c.cid = p.1 :=
              hs p (List.mem_cons_self _ _) (entity, c) (dget_mem hc)
            have hcid' : b.cid = p'.1 :=
              hs p' (List.mem_cons_of_mem _ hp') (entity, b) (dget_mem hb')
            have habs := hd.1
            simp only [keyAbsent, List.all_eq_true, decide_eq_true_eq] at habs
            have hne := habs p' hp'
            rw [hcid, hcid']
            exact Ne.symm hne
  exact hgen m.components hwf.compKeys fun p hp => fun q hq => ((hwf.store p hp).2 q hq).1

/-- State facts about one active `deregister_component` call. -/
theorem deregister_active_facts {m : EcsManager} {entity component_type : Nat}
    {comp : Comp} (hwf : WF m) (he : entity ∈ m.entities)
    (hc : storeGet m component_type entity = some comp) :
    (deregister_component entity component_type m).2.entities = m.entities ∧
    (∀ t' e', t' ≠ component_type →
      storeGet (deregister_component entity component_type m).2 t' e' =
        storeGet m t' e') ∧
    storeGet (deregister_component entity component_type m).2 component_type entity
      = none := by
  obtain ⟨inner₀, hm₀, hi₀⟩ := storeGet_some_iff.mp hc
  have hkeys : distinctKeys inner₀ = true :=
    (hwf.store (component_type, inner₀) (dget_mem hm₀)).1
  rw [deregister_component_active entity component_type m comp he hc]
  refine ⟨rfl, ?_, ?_⟩
  · intro t' e' ht'
    unfold storeGet storeGetC
    rw [hm₀]
    simp only [Option.getD_some]
    rw [dget_dset, if_neg (Ne.symm ht')]
  · unfold storeGet storeGetC
    rw [hm₀]
    simp only [Option.getD_some]
    rw [dget_dset, if_pos rfl]
    exact dget_dpop_self hkeys

/-- The component-deregistration fold performed by `destroy_entity`. -/
def dereg_fold (entity : Nat) (cs : List Comp) (m : EcsManager) : EcsManager :=
  cs.foldl (fun acc c => (deregister_component entity c.cid acc).2) m

/-- Main inductive fact about the deregistration fold: it keeps the
invariant and the live set, it never creates component registrations for
the destroyed entity, and it clears every component type it is given. -/
theorem dereg_fold_spec (entity : Nat) :
    ∀ (cs : List Comp) (m : EcsManager), WF m → entity ∈ m.entities →
    (∀ c ∈ cs, storeGet m c.cid entity = some c) →
    List.Pairwise (fun a b => a.cid ≠ b.cid) cs →
    WF (dereg_fold entity cs m) ∧
    (dereg_fold entity cs m).entities = m.entities ∧
    (∀ t, (storeGet (dereg_fold entity cs m) t entity).isSome = true →
      (storeGet m t entity).isSome = true) ∧
    (∀ c ∈ cs, storeGet (dereg_fold entity cs m) c.cid entity = none) := by
  intro cs
  induction cs with
  | nil =>
      intro m hwf he h1 h2
      exact ⟨hwf, rfl, fun t ht => ht, by simp⟩
  | cons c rest ih =>
      intro m hwf he h1 h2
      have hc : storeGet m c.cid entity = some c := h1 c (List.mem_cons_self _ _)
      obtain ⟨hent, hne, hclear⟩ := deregister_active_facts hwf he hc
      have hwf1 : WF (deregister_component entity c.cid m).2 :=
        WF_deregister_component entity c.cid hwf
      have he1 : entity ∈ (deregister_component entity c.cid m).2.entities := by
        rw [hent]
        exact he
      have h11 : ∀ c' ∈ rest,
          storeGet (deregister_component entity c.cid m).2 c'.cid entity = some c' := by
        intro c' hc'
        have hcc : c'.cid ≠ c.cid :=
          Ne.symm ((List.pairwise_cons.mp h2).1 c' hc')
        rw [hne c'.cid entity hcc]
        exact h1 c' (List.mem_cons_of_mem _ hc')
      have h21 : List.Pairwise (fun a b => a.cid ≠ b.cid) rest :=
        (List.pairwise_cons.mp h2).2
      obtain ⟨ih1, ih2, ih3, ih4⟩ :=
        ih (deregister_component entity c.cid m).2 hwf1 he1 h11 h21
      have hfold : dereg_fold entity (c :: rest) m =
          dereg_fold entity rest (deregister_component entity c.cid m).2 := rfl
      rw [hfold]
      refine ⟨ih1, ih2.trans hent, ?_, ?_⟩
      · intro t ht
        have hstep := ih3 t ht
        by_cases htc : t = c.cid
        · rw [htc, hclear] at hstep
          exact absurd hstep (by simp)
        · rw [hne t entity htc] at hstep
          exact hstep
      · intro c' hc'
        rcases List.mem_cons.mp hc' with h₁ | h₁
        · subst h₁
          cases hg : storeGet (dereg_fold entity rest
              (deregister_component entity c'.cid m).2) c'.cid entity with
          | none => rfl
          | some x =>
              have := ih3 c'.cid (by rw [hg]; rfl)
              rw [hclear] at this
              exact absurd this (by simp)
        · exact ih4 c' h₁

/-- Branch equation for `destroy_entity` on a live entity. -/
theorem destroy_entity_eq (entity : Nat) (m : EcsManager) (he : entity ∈ m.entities) :
    destroy_entity entity m =
      (Except.ok (held_components m entity),
        { dereg_fold entity (held_components m entity) m with
            entities := (dereg_fold entity (held_components m entity) m).entities.filter
              fun x => decide (x ≠ entity) }) := by
  simp only [destroy_entity, he, if_true]
  rfl

theorem WF_destroy_entity {m : EcsManager} (entity : Nat) (h : WF m) :
    WF (destroy_entity entity m).2 := by
  by_cases he : entity ∈ m.entities
  case neg => simpa [destroy_entity, he] using h
  case pos =>
    rw [destroy_entity_eq entity m he]
    obtain ⟨hwfF, hentF, hdecF, hclearF⟩ :=
      dereg_fold_spec entity (held_components m entity) m h he
        (fun c hc => held_components_spec h hc) (held_components_pairwise entity h)
    have hgone : ∀ ar, ar ≠ [] → ∀ e', (∀ t ∈ ar,
        (storeGetC (dereg_fold entity (held_components m entity) m).components t e').isSome
          = true) → e' ≠ entity := by
      intro ar har e' hall heq
      rw [heq] at hall
      obtain ⟨t, ht⟩ : ∃ t, t ∈ ar := by
        cases ar with
        | nil => exact absurd rfl har
        | cons t ts => exact ⟨t, List.mem_cons_self _ _⟩
      have hsomeF : (storeGet (dereg_fold entity (held_components m entity) m) t entity).isSome
          = true := hall t ht
      have hsome : (storeGet m t entity).isSome = true := hdecF t hsomeF
      obtain ⟨c₀, hc₀⟩ := Option.isSome_iff_exists.mp hsome
      have hc₀held : c₀ ∈ held_components m entity := storeGet_mem_held hc₀
      have hc₀cid : c₀.cid = t := (storeGet_cid h hc₀).1
      have := hclearF c₀ hc₀held
      rw [hc₀cid] at this
      rw [this] at hsomeF
      exact absurd hsomeF (by simp)
    refine ⟨hwfF.compKeys, hwfF.archKeys, hwfF.sysKeys, ?_, hwfF.store⟩
    intro p hp
    obtain ⟨hbk, hbe⟩ := hwfF.buckets p hp
    refine ⟨hbk, fun q hq => ?_⟩
    obtain ⟨h₁, h₂⟩ := hbe q hq
    refine ⟨h₁, fun hne => ?_⟩
    have hlive := h₂ hne
    have hqe : q.1 ≠ entity := hgone p.1 hne q.1 h₁
    exact List.mem_filter.mpr ⟨hlive, by simp [hqe]⟩

theorem WF_deregister_system {m : EcsManager} (s : Sys) (h : WF m) :
    WF (deregister_system s m) := by
  unfold deregister_system
  cases hs : dget m.systems s.sid with
  | none => exact h
  | some actionset =>
      obtain ⟨h1, h2, h3, h4, h5⟩ := h
      refine ⟨h1, drop_stale_archKeys _ _ _ h2, distinctKeys_dpop h3,
        fun p hp => ?_, h5⟩
      exact h4 p (drop_stale_mem _ _ _ hp)

theorem WF_applyOp (op : Op) {m : EcsManager} (h : WF m) : WF (applyOp op m) := by
  cases op with
  | register_system s => exact WF_register_system s h
  | deregister_system s => exact WF_deregister_system s h
  | create_entity => exact WF_create_entity h
  | register_component e c => exact WF_register_component e c h
  | deregister_component e t => exact WF_deregister_component e t h
  | destroy_entity e => exact WF_destroy_entity e h
  | fetch_component e t =>
      show WF (fetch_component e t m).2
      rw [fetch_component_state]
      exact h
  | fetch_archetype ar =>
      show WF (fetch_archetype ar m).2
      rw [fetch_archetype_state]
      exact h
  | pause => exact WF_pause h
  | unpause => exact WF_unpause h

/-- Every reachable manager state satisfies the invariant. -/
theorem reachable_WF {m : EcsManager} (h : Reachable m) : WF m := by
  induction h with
  | init => exact WF_initManager
  | step op hr ih => exact WF_applyOp op ih

/-! ## Observable-effect lemmas for single operations -/

theorem storeGetC_dget {comps : List (Nat × List (Nat × Comp))} {t e : Nat}
    {inner : List (Nat × Comp)} (h : dget comps t = some inner) :
    storeGetC comps t e = dget inner e := by
  unfold storeGetC
  rw [h]

theorem storeGetC_none {comps : List (Nat × List (Nat × Comp))} {t e : Nat}
    (h : dget comps t = none) : storeGetC comps t e = none := by
  unfold storeGetC
  rw [h]

theorem storeGetC_congr {comps comps' : List (Nat × List (Nat × Comp))} {t : Nat}
    (e : Nat) (h : dget comps t = dget comps' t) :
    storeGetC comps t e = storeGetC comps' t e := by
  unfold storeGetC
  rw [h]

/-- The dict `register_component` reads its `old_component` from is the
entity's current registration. -/
theorem reg_branch (m : EcsManager) (ct e : Nat) :
    dget ((dget (if (dget m.components ct).isSome then m.components
      else dset m.components ct []) ct).getD []) e = storeGet m ct e := by
  cases hmc : dget m.components ct with
  | none =>
      simp only [hmc, Option.isSome_none, Bool.false_eq_true, if_false]
      rw [dget_dset, if_pos rfl]
      unfold storeGet
      rw [storeGetC_none hmc]
      rfl
  | some inner₀ =>
      simp only [hmc, Option.isSome_some, if_true, Option.getD_some]
      unfold storeGet
      rw [storeGetC_dget hmc]

theorem reg_comps0_ne (m : EcsManager) (ct t : Nat) (h : t ≠ ct) :
    dget (if (dget m.components ct).isSome then m.components
      else dset m.components ct []) t = dget m.components t := by
  split
  · rfl
  · rw [dget_dset, if_neg (Ne.symm h)]

theorem build_values_eq_map {comps : List (Nat × List (Nat × Comp))} {e : Nat}
    (g : Nat → Comp) :
    ∀ ar : Archetype, (∀ t ∈ ar, storeGetC comps t e = some (g t)) →
      build_values comps e ar = some (ar.map g) := by
  intro ar
  induction ar with
  | nil => intro _; rfl
  | cons t ts ih =>
      intro hall
      have h1 : storeGetC comps t e = some (g t) := hall t (List.mem_cons_self _ _)
      have h2 := ih fun t' ht' => hall t' (List.mem_cons_of_mem _ ht')
      simp [build_values, h1, h2]

theorem build_values_none {comps : List (Nat × List (Nat × Comp))} {e : Nat}
    {ar : Archetype} {t : Nat} (ht : t ∈ ar) (hn : storeGetC comps t e = none) :
    build_values comps e ar = none := by
  cases hbv : build_values comps e ar with
  | none => rfl
  | some vs =>
      have := build_values_isSome hbv t ht
      rw [hn] at this
      exact absurd this (by simp)

/-- Observable effect of a fresh (non-replacing) `register_component`
call: the new component (with its back-reference set) is returned and
installed, nothing else in the store changes, the live set and the system
registry are untouched, and every archetype bucket is swept with
`update_bucket` against the updated store. -/
theorem register_component_fresh_obs (entity : Nat) (c : Comp) (m : EcsManager)
    (he : entity ∈ m.entities) (hnone : storeGet m c.cid entity = none) :
    (register_component entity c m).1 = Except.ok ({ c with eid := some entity } : Comp) ∧
    (register_component entity c m).2.entities = m.entities ∧
    (register_component entity c m).2.systems = m.systems ∧
    (∀ t e', storeGet (register_component entity c m).2 t e' =
      if t = c.cid ∧ e' = entity then some ({ c with eid := some entity } : Comp)
      else storeGet m t e') ∧
    (∀ ar bucket, dget m.archetypes ar = some bucket →
      dget (register_component entity c m).2.archetypes ar =
        some (update_bucket (register_component entity c m).2.components entity ar bucket)) := by
  have hold : dget ((dget (if (dget m.components c.cid).isSome then m.components
      else dset m.components c.cid []) c.cid).getD []) entity = none := by
    rw [reg_branch]
    exact hnone
  rw [register_component_fresh entity c m he _ rfl _ rfl hold]
  set comp1 : Comp := { c with eid := some entity } with hcomp1
  set comps0 := (if (dget m.components c.cid).isSome then m.components
    else dset m.components c.cid []) with hcomps0
  set inner := (dget comps0 c.cid).getD [] with hinner
  set comps1 := dset comps0 c.cid (dset inner entity comp1) with hcomps1
  refine ⟨rfl, rfl, rfl, ?_, ?_⟩
  · intro t e'
    show storeGetC comps1 t e' = _
    by_cases htc : t = c.cid
    · have hc1 : dget comps1 t = some (dset inner entity comp1) := by
        rw [hcomps1, dget_dset, if_pos htc.symm]
      rw [storeGetC_dget hc1]
      by_cases hee : e' = entity
      · rw [dget_dset, if_pos hee.symm,
          if_pos (show t = c.cid ∧ e' = entity from ⟨htc, hee⟩)]
      · rw [dget_dset, if_neg (show ¬(entity = e') from fun hh => hee hh.symm),
          if_neg (show ¬(t = c.cid ∧ e' = entity) from fun hh => hee hh.2)]
        rw [htc, hinner, hcomps0]
        exact reg_branch m c.cid e'
    · have hc1 : dget comps1 t = dget m.components t := by
        rw [hcomps1, dget_dset, if_neg (Ne.symm htc), hcomps0]
        exact reg_comps0_ne m c.cid t htc
      rw [if_neg (show ¬(t = c.cid ∧ e' = entity) from fun hh => htc hh.1)]
      exact storeGetC_congr e' hc1
  · intro ar bucket hb
    show dget (update_buckets comps1 entity m.archetypes) ar =
      some (update_bucket comps1 entity ar bucket)
    rw [update_buckets, dget_mapBuckets, hb]
    rfl

/-! ## Entity-id monotonicity -/

theorem register_component_entity_id (e : Nat) (c : Comp) (m : EcsManager) :
    ((register_component e c m).2).entity_id = m.entity_id := by
  unfold register_component
  by_cases he : e ∈ m.entities
  · simp only [he, if_true]
    cases hold : dget ((dget (if (dget m.components c.cid).isSome then m.components
        else dset m.components c.cid []) c.cid).getD []) e with
    | none => rfl
    | some oldc => rfl
  · simp only [he, if_false]

theorem deregister_component_entity_id (e t : Nat) (m : EcsManager) :
    ((deregister_component e t m).2).entity_id = m.entity_id := by
  unfold deregister_component
  split
  · split <;> rfl
  · rfl

theorem dereg_fold_entity_id (e : Nat) (cs : List Comp) :
    ∀ m : EcsManager, (dereg_fold e cs m).entity_id = m.entity_id := by
  induction cs with
  | nil => intro m; rfl
  | cons c rest ih =>
      intro m
      have : dereg_fold e (c :: rest) m =
          dereg_fold e rest (deregister_component e c.cid m).2 := rfl
      rw [this, ih, deregister_component_entity_id]

theorem entity_id_applyOp (op : Op) (m : EcsManager) :
    m.entity_id ≤ (applyOp op m).entity_id := by
  cases op with
  | register_system s =>
      show m.entity_id ≤ (register_system s m).entity_id
      unfold register_system
      split <;> exact Nat.le_refl _
  | deregister_system s =>
      show m.entity_id ≤ (deregister_system s m).entity_id
      unfold deregister_system
      split <;> exact Nat.le_refl _
  | create_entity => exact Nat.le_succ _
  | register_component e c =>
      show m.entity_id ≤ (register_component e c m).2.entity_id
      rw [register_component_entity_id]
  | deregister_component e t =>
      show m.entity_id ≤ (deregister_component e t m).2.entity_id
      rw [deregister_component_entity_id]
  | destroy_entity e =>
      show m.entity_id ≤ (destroy_entity e m).2.entity_id
      unfold destroy_entity
      split
      · exact Nat.le_of_eq (dereg_fold_entity_id e _ m).symm
      · exact Nat.le_refl _
  | fetch_component e t =>
      show m.entity_id ≤ (fetch_component e t m).2.entity_id
      rw [fetch_component_state]
  | fetch_archetype ar =>
      show m.entity_id ≤ (fetch_archetype ar m).2.entity_id
      rw [fetch_archetype_state]
  | pause => exact Nat.le_refl _
  | unpause => exact Nat.le_refl _

theorem createdIds_ge (ops : List Op) :
    ∀ m : EcsManager, ∀ x ∈ createdIds ops m, m.entity_id ≤ x := by
  induction ops with
  | nil => intro m x hx; simp [createdIds] at hx
  | cons op rest ih =>
      intro m x hx
      have hstep := entity_id_applyOp op m
      cases op
      case create_entity =>
        simp only [createdIds] at hx
        rcases List.mem_cons.mp hx with h | h
        · rw [h]
          exact Nat.le_refl _
        · exact Nat.le_trans hstep (ih _ x h)
      all_goals exact Nat.le_trans hstep (ih _ x (by simpa [createdIds] using hx))

/-! ## `drop_stale` characterization -/

theorem drop_stale_dget_none (systems : List (Nat × List (Nat × Archetype))) :
    ∀ (actionset : List (Nat × Archetype)) (archs : List (Archetype × Bucket))
      (ar : Archetype), dget archs ar = none →
      dget (drop_stale systems actionset archs) ar = none := by
  intro actionset
  induction actionset with
  | nil => intro archs ar h; exact h
  | cons a rest ih =>
      intro archs ar h
      obtain ⟨aid0, ar0⟩ := a
      simp only [drop_stale]
      by_cases h0 : archReferenced systems ar0
      · simp only [h0, if_true]
        exact ih archs ar h
      · simp only [h0, Bool.false_eq_true, if_false]
        exact ih _ ar (dget_none_dpop h)

theorem drop_stale_dget (systems : List (Nat × List (Nat × Archetype))) :
    ∀ (actionset : List (Nat × Archetype)) (archs : List (Archetype × Bucket)),
    distinctKeys archs = true →
    ∀ ar : Archetype,
      (archReferenced systems ar = true →
        dget (drop_stale systems actionset archs) ar = dget archs ar) ∧
      (archReferenced systems ar = false → (∃ aid, (aid, ar) ∈ actionset) →
        dget (drop_stale systems actionset archs) ar = none) := by
  intro actionset
  induction actionset with
  | nil =>
      intro archs hd ar
      exact ⟨fun _ => rfl, fun _ h => absurd h (by simp)⟩
  | cons a rest ih =>
      intro archs hd ar
      obtain ⟨aid0, ar0⟩ := a
      constructor
      · intro href
        by_cases h0 : archReferenced systems ar0
        · simp only [drop_stale, h0, if_true]
          exact (ih archs hd ar).1 href
        · simp only [drop_stale, h0, Bool.false_eq_true, if_false]
          have hne : ar0 ≠ ar := by
            intro hh
            rw [hh] at h0
            exact h0 href
          rw [(ih (dpop archs ar0) (distinctKeys_dpop hd) ar).1 href,
            dget_dpop_ne _ _ _ hne]
      · intro href hex
        obtain ⟨aid, hmem⟩ := hex
        rcases List.mem_cons.mp hmem with h₁ | h₁
        · have har0 : ar = ar0 := (Prod.ext_iff.mp h₁).2
          subst har0
          simp only [drop_stale, href, Bool.false_eq_true, if_false]
          exact drop_stale_dget_none systems rest _ ar (dget_dpop_self hd)
        · by_cases h0 : archReferenced systems ar0
          · simp only [drop_stale, h0, if_true]
            exact (ih archs hd ar).2 href ⟨aid, h₁⟩
          · simp only [drop_stale, h0, Bool.false_eq_true, if_false]
            exact (ih (dpop archs ar0) (distinctKeys_dpop hd) ar).2 href ⟨aid, h₁⟩

/-! ## Frame-loop lemmas -/

theorem run_tick_append_stop (acts : Nat → ActionFn) (dt : Int) :
    ∀ (q1 q2 : List Invocation) (m m' : EcsManager) (tr : List Invocation),
      run_tick acts dt q1 m = (tr, EcsContinuation.Stop, m') →
      run_tick acts dt (q1 ++ q2) m = (tr, EcsContinuation.Stop, m') := by
  intro q1
  induction q1 with
  | nil =>
      intro q2 m m' tr h
      simp only [run_tick] at h
      exact absurd h (by simp)
  | cons inv rest ih =>
      intro q2 m m' tr h
      simp only [List.cons_append]
      simp only [run_tick] at h ⊢
      cases hact : acts inv.2.2 dt m (((dget m.archetypes inv.1).getD []).map Prod.snd) with
      | mk cont m1 =>
          cases cont with
          | Stop =>
              simp only [hact] at h
              exact h
          | Continue =>
              simp only [hact] at h
              rcases hr : run_tick acts dt rest m1 with ⟨tr1, c1, m1'⟩
              rw [hr] at h
              simp only [Prod.mk.injEq] at h
              obtain ⟨htr, hc, hm⟩ := h
              subst hc
              subst hm
              subst htr
              show (inv :: (run_tick acts dt (rest ++ q2) m1).1,
                  (run_tick acts dt (rest ++ q2) m1).2.1,
                  (run_tick acts dt (rest ++ q2) m1).2.2)
                = (inv :: tr1, EcsContinuation.Stop, m1')
              rw [ih q2 m1 m1' tr1 hr]

theorem process_go_stop (acts : Nat → ActionFn) (times : Nat → Int) (fuel : Nat)
    (last : Int) (n : Nat) (m m' : EcsManager) (tr : List Invocation)
    (h : run_tick acts ((times n - last) * (m.deltatime : Int)) (tick_invocations m) m
      = (tr, EcsContinuation.Stop, m')) :
    process_go acts times (fuel + 1) last n m = (tr, m') := by
  simp only [process_go]
  rw [h]

/-- Observable effect of a replacing `register_component` call: the old
instance is returned, the archetype index is untouched (every bucket keeps
the instance it already cached), and the store now maps the entity to the
new instance. -/
theorem register_component_replace_obs (entity : Nat) (c oldc : Comp)
    (m : EcsManager) (he : entity ∈ m.entities)
    (hsome : storeGet m c.cid entity = some oldc) :
    (register_component entity c m).1 = Except.ok oldc ∧
    (register_component entity c m).2.archetypes = m.archetypes ∧
    (register_component entity c m).2.entities = m.entities ∧
    storeGet (register_component entity c m).2 c.cid entity
      = some ({ c with eid := some entity } : Comp) := by
  have hold : dget ((dget (if (dget m.components c.cid).isSome then m.components
      else dset m.components c.cid []) c.cid).getD []) entity = some oldc := by
    rw [reg_branch]
    exact hsome
  rw [register_component_replace entity c oldc m he _ rfl _ rfl hold]
  set comp1 : Comp := { c with eid := some entity } with hcomp1
  set comps0 := (if (dget m.components c.cid).isSome then m.components
    else dset m.components c.cid []) with hcomps0
  set inner := (dget comps0 c.cid).getD [] with hinner
  set comps1 := dset comps0 c.cid (dset (dpop inner entity) entity comp1) with hcomps1
  refine ⟨rfl, rfl, rfl, ?_⟩
  have hc1 : dget comps1 c.cid = some (dset (dpop inner entity) entity comp1) := by
    rw [hcomps1, dget_dset, if_pos rfl]
  show storeGetC comps1 c.cid entity = some comp1
  rw [storeGetC_dget hc1, dget_dset, if_pos rfl]

/-! ## Claim theorems, witnesses and counterexamples -/

/-- C1 (amended): in every reachable manager state, an entity present in
an archetype bucket holds a registered component of every type in that
archetype's tuple, and is live whenever the tuple is nonempty.  The
converse direction of the original claim fails: `register_system` creates
a missing archetype bucket empty, without backfilling live entities that
already hold all the required component types (see the counterexample). -/
theorem bucket_membership_invariant {m : EcsManager} (hm : Reachable m)
    {ar : Archetype} {bucket : Bucket} (hb : dget m.archetypes ar = some bucket)
    {e : Nat} {vs : List Comp} (he : dget bucket e = some vs) :
    (∀ t ∈ ar, hasComponent m e t = true) ∧ (ar ≠ [] → e ∈ m.entities) := by
  have hwf := reachable_WF hm
  have h := (hwf.buckets (ar, bucket) (dget_mem hb)).2 (e, vs) (dget_mem he)
  exact ⟨fun t ht => h.1 t ht, h.2⟩

/-- Reachable state in which entity 0 is live, holds a component of type
0, and is cached in the `[0]` archetype bucket. -/
def c1w_state : EcsManager :=
  applyOp (Op.register_component 0 ⟨1, 0, none⟩)
    (applyOp Op.create_entity
      (applyOp (Op.register_system ⟨0, [(0, [⟨0⟩])]⟩) initManager))

theorem bucket_membership_invariant_witness :
    (∀ t ∈ ([0] : Archetype), hasComponent c1w_state 0 t = true) ∧
    (([0] : Archetype) ≠ [] → 0 ∈ c1w_state.entities) :=
  bucket_membership_invariant
    (Reachable.step (Op.register_component 0 ⟨1, 0, none⟩)
      (Reachable.step Op.create_entity
        (Reachable.step (Op.register_system ⟨0, [(0, [⟨0⟩])]⟩) Reachable.init)))
    (show dget c1w_state.archetypes [0] = some [(0, [⟨1, 0, some 0⟩])] by decide)
    (show dget [(0, [(⟨1, 0, some 0⟩ : Comp)])] 0 = some [⟨1, 0, some 0⟩] by decide)

/-- Reachable state refuting C1 as stated: entity 0 is live and holds a
component of type 0 (the only type in the `[0]` archetype tuple), the
`[0]` bucket exists — created by `register_system` after the component was
registered — yet the bucket is empty. -/
def c1_state : EcsManager :=
  applyOp (Op.register_system ⟨0, [(0, [⟨0⟩])]⟩)
    (applyOp (Op.register_component 0 ⟨1, 0, none⟩)
      (applyOp Op.create_entity initManager))

theorem bucket_membership_counterexample :
    Reachable c1_state ∧ (0 : Nat) ∈ c1_state.entities ∧
    hasComponent c1_state 0 0 = true ∧
    dget c1_state.archetypes [0] = some [] :=
  ⟨Reachable.step (Op.register_system ⟨0, [(0, [⟨0⟩])]⟩)
      (Reachable.step (Op.register_component 0 ⟨1, 0, none⟩)
        (Reachable.step Op.create_entity Reachable.init)),
   by decide, by decide, by decide⟩

/-- C2 (amended): when `register_component` replaces an existing component
of the same type for a live entity, it returns the old instance, leaves
the archetype index untouched — so every bucket slot still refers to the
OLD (evicted) instance it cached — while the component store now maps the
entity to the new instance. -/
theorem replace_component_bucket_behavior (entity : Nat) (c oldc : Comp)
    (m : EcsManager) (he : entity ∈ m.entities)
    (hsome : storeGet m c.cid entity = some oldc) :
    (register_component entity c m).1 = Except.ok oldc ∧
    (register_component entity c m).2.archetypes = m.archetypes ∧
    storeGet (register_component entity c m).2 c.cid entity
      = some ({ c with eid := some entity } : Comp) := by
  obtain ⟨h1, h2, _, h4⟩ := register_component_replace_obs entity c oldc m he hsome
  exact ⟨h1, h2, h4⟩

/-- State with entity 0 cached in the `[0]` bucket holding instance
`iid 1` of type 0. -/
def c2w_state : EcsManager :=
  (register_component 0 ⟨1, 0, none⟩
    (applyOp Op.create_entity
      (applyOp (Op.register_system ⟨0, [(0, [⟨0⟩])]⟩) initManager))).2

theorem replace_component_bucket_behavior_witness :
    (register_component 0 ⟨2, 0, none⟩ c2w_state).1 = Except.ok ⟨1, 0, some 0⟩ ∧
    (register_component 0 ⟨2, 0, none⟩ c2w_state).2.archetypes = c2w_state.archetypes ∧
    storeGet (register_component 0 ⟨2, 0, none⟩ c2w_state).2 0 0 = some ⟨2, 0, some 0⟩ :=
  replace_component_bucket_behavior 0 ⟨2, 0, none⟩ ⟨1, 0, some 0⟩ c2w_state
    (by decide) (by decide)

/-- Reachable state refuting C2 as stated: after replacing entity 0's
type-0 component (`iid 1`) with a new instance (`iid 2`), the store holds
the new instance but the `[0]` bucket's slot still holds the evicted
`iid 1` instance. -/
def c2_state : EcsManager :=
  applyOp (Op.register_component 0 ⟨2, 0, none⟩)
    (applyOp (Op.register_component 0 ⟨1, 0, none⟩)
      (applyOp Op.create_entity
        (applyOp (Op.register_system ⟨0, [(0, [⟨0⟩])]⟩) initManager)))

theorem replace_component_counterexample :
    Reachable c2_state ∧
    storeGet c2_state 0 0 = some ⟨2, 0, some 0⟩ ∧
    dget c2_state.archetypes [0] = some [(0, [⟨1, 0, some 0⟩])] ∧
    (⟨1, 0, some 0⟩ : Comp) ≠ ⟨2, 0, some 0⟩ :=
  ⟨Reachable.step (Op.register_component 0 ⟨2, 0, none⟩)
      (Reachable.step (Op.register_component 0 ⟨1, 0, none⟩)
        (Reachable.step Op.create_entity
          (Reachable.step (Op.register_system ⟨0, [(0, [⟨0⟩])]⟩) Reachable.init))),
   by decide, by decide, by decide⟩

/-- C3: the first invocation that returns `Stop` ends everything: the
remainder of the tick's invocation queue (spanning the remaining actions
of the same system, the remaining systems for the archetype and all
remaining archetypes) is never invoked and does not affect the result, and
the frame loop returns at once regardless of the remaining fuel — no
subsequent tick runs. -/
theorem process_stops_at_first_stop (acts : Nat → ActionFn) (times : Nat → Int)
    (fuel : Nat) (last : Int) (n : Nat) (dt : Int) (m m' : EcsManager)
    (tr q1 q2 : List Invocation) :
    (run_tick acts dt q1 m = (tr, EcsContinuation.Stop, m') →
      run_tick acts dt (q1 ++ q2) m = (tr, EcsContinuation.Stop, m')) ∧
    (run_tick acts ((times n - last) * (m.deltatime : Int)) (tick_invocations m) m
        = (tr, EcsContinuation.Stop, m') →
      process_go acts times (fuel + 1) last n m = (tr, m')) :=
  ⟨run_tick_append_stop acts dt q1 q2 m m' tr,
   process_go_stop acts times fuel last n m m' tr⟩

/-- Action table for the frame-loop witness: every action stops at once. -/
def c3_acts : Nat → ActionFn := fun _ => fun _ m _ => (EcsContinuation.Stop, m)

/-- Wall-clock stream for the frame-loop witness. -/
def c3_times : Nat → Int := fun _ => 0

/-- Manager with one registered system bound to archetype `[0]`. -/
def c3_state : EcsManager :=
  register_system ⟨0, [(0, [⟨0⟩])]⟩ initManager

theorem process_stops_at_first_stop_witness :
    run_tick c3_acts 0 (tick_invocations c3_state ++ [([0], 0, 0)]) c3_state
      = ([([0], 0, 0)], EcsContinuation.Stop, c3_state) ∧
    process_go c3_acts c3_times 5 0 1 c3_state = ([([0], 0, 0)], c3_state) :=
  ⟨(process_stops_at_first_stop c3_acts c3_times 4 0 1 0 c3_state c3_state
      [([0], 0, 0)] (tick_invocations c3_state) [([0], 0, 0)]).1 (by decide),
   (process_stops_at_first_stop c3_acts c3_times 4 0 1 0 c3_state c3_state
      [([0], 0, 0)] [] []).2 (by decide)⟩

/-- C4 (amended): destroying a live entity returns exactly the components
it held just before the call (one per registered type), removes it from
the live set and from every component-type inner mapping, and removes it
from every archetype bucket whose tuple is NONEMPTY.  The original claim
fails for a bucket whose archetype tuple is empty: such a bucket collects
every entity that freshly registers a component, and `deregister_component`
never prunes it, so the destroyed entity stays in it (see the
counterexample). -/
theorem destroy_entity_spec (entity : Nat) (m : EcsManager)
    (hwf : wf m = true) (he : entity ∈ m.entities) :
    (destroy_entity entity m).1 = Except.ok (held_components m entity) ∧
    (∀ c, c ∈ held_components m entity ↔ ∃ t, storeGet m t entity = some c) ∧
    entity ∉ (destroy_entity entity m).2.entities ∧
    (∀ t inner, dget (destroy_entity entity m).2.components t = some inner →
      dget inner entity = none) ∧
    (∀ ar bucket, ar ≠ [] →
      dget (destroy_entity entity m).2.archetypes ar = some bucket →
      dget bucket entity = none) := by
  have h := (wf_iff m).mp hwf
  rw [destroy_entity_eq entity m he]
  obtain ⟨hwfF, hentF, hdecF, hclearF⟩ :=
    dereg_fold_spec entity (held_components m entity) m h he
      (fun c hc => held_components_spec h hc) (held_components_pairwise entity h)
  refine ⟨rfl, ?_, ?_, ?_, ?_⟩
  · intro c0
    constructor
    · intro hc
      exact ⟨c0.cid, held_components_spec h hc⟩
    · rintro ⟨t, ht⟩
      exact storeGet_mem_held ht
  · intro hmem
    have h2 := (List.mem_filter.mp hmem).2
    simp at h2
  · intro t inner hti
    cases hg : dget inner entity with
    | none => rfl
    | some x =>
        have hsF : (storeGet (dereg_fold entity (held_components m entity) m) t
            entity).isSome = true :=
          storeGet_isSome_iff.mpr ⟨inner, hti, by simp [hg]⟩
        have hsome := hdecF t hsF
        obtain ⟨c₀, hc₀⟩ := Option.isSome_iff_exists.mp hsome
        have hcl := hclearF c₀ (storeGet_mem_held hc₀)
        rw [(storeGet_cid h hc₀).1] at hcl
        rw [hcl] at hsF
        exact absurd hsF (by simp)
  · intro ar bucket har hb
    cases hbe : dget bucket entity with
    | none => rfl
    | some vs =>
        obtain ⟨hbk, hbent⟩ := hwfF.buckets (ar, bucket) (dget_mem hb)
        have hcond := hbent (entity, vs) (dget_mem hbe)
        obtain ⟨t, ht⟩ : ∃ t, t ∈ ar := by
          cases ar with
          | nil => exact absurd rfl har
          | cons t ts => exact ⟨t, List.mem_cons_self _ _⟩
        have hsF : (storeGet (dereg_fold entity (held_components m entity) m) t
            entity).isSome = true := hcond.1 t ht
        have hsome := hdecF t hsF
        obtain ⟨c₀, hc₀⟩ := Option.isSome_iff_exists.mp hsome
        have hcl := hclearF c₀ (storeGet_mem_held hc₀)
        rw [(storeGet_cid h hc₀).1] at hcl
        rw [hcl] at hsF
        exact absurd hsF (by simp)

/-- State with a live entity 0 holding a type-0 component, cached in the
nonempty `[0]` archetype bucket. -/
def c4w_state : EcsManager :=
  applyOp (Op.register_component 0 ⟨1, 0, none⟩)
    (applyOp Op.create_entity
      (applyOp (Op.register_system ⟨0, [(0, [⟨0⟩])]⟩) initManager))

theorem destroy_entity_spec_witness :
    (destroy_entity 0 c4w_state).1 = Except.ok (held_components c4w_state 0) ∧
    (∀ c, c ∈ held_components c4w_state 0 ↔ ∃ t, storeGet c4w_state t 0 = some c) ∧
    0 ∉ (destroy_entity 0 c4w_state).2.entities ∧
    (∀ t inner, dget (destroy_entity 0 c4w_state).2.components t = some inner →
      dget inner 0 = none) ∧
    (∀ ar bucket, ar ≠ [] →
      dget (destroy_entity 0 c4w_state).2.archetypes ar = some bucket →
      dget bucket 0 = none) :=
  destroy_entity_spec 0 c4w_state (by decide) (by decide)

/-- Reachable state refuting C4 as stated: a system registered an action
with the EMPTY archetype tuple; entity 0 fell into the empty-tuple bucket
when it registered its component, and destroying it leaves it there even
though it is removed from the live set and the component store. -/
def c4_state : EcsManager :=
  applyOp (Op.register_component 0 ⟨1, 0, none⟩)
    (applyOp Op.create_entity
      (applyOp (Op.register_system ⟨0, [(0, [])]⟩) initManager))

theorem destroy_entity_counterexample :
    Reachable c4_state ∧
    (destroy_entity 0 c4_state).1 = Except.ok [⟨1, 0, some 0⟩] ∧
    (destroy_entity 0 c4_state).2.entities = [] ∧
    dget (destroy_entity 0 c4_state).2.archetypes [] = some [(0, [])] :=
  ⟨Reachable.step (Op.register_component 0 ⟨1, 0, none⟩)
      (Reachable.step Op.create_entity
        (Reachable.step (Op.register_system ⟨0, [(0, [])]⟩) Reachable.init)),
   by decide, by decide, by decide⟩

/-- C5: registering two fresh components A and B (of distinct types, in
either order — A and B range over both orders) for a live entity adds the
entity, with the current instances of both components, to an existing
archetype bucket whose tuple requires exactly the two types; deregistering
either type then removes the entity from that bucket immediately. -/
theorem pair_registration_spec (m : EcsManager) (entity ca cb : Nat) (A B : Comp)
    (ar : Archetype) (bucket : Bucket)
    (hwf : wf m = true) (he : entity ∈ m.entities) (hab : ca ≠ cb)
    (hA : A.cid = ca) (hB : B.cid = cb)
    (hNa : storeGet m ca entity = none) (hNb : storeGet m cb entity = none)
    (har : dget m.archetypes ar = some bucket)
    (hca : ca ∈ ar) (hcb : cb ∈ ar) (hsub : ∀ t ∈ ar, t = ca ∨ t = cb) :
    dget ((register_component entity B (register_component entity A m).2).2).archetypes ar
        = some (dset bucket entity (ar.map fun t =>
            if t = ca then { A with eid := some entity } else { B with eid := some entity })) ∧
    storeGet ((register_component entity B (register_component entity A m).2).2) ca entity
        = some ({ A with eid := some entity } : Comp) ∧
    storeGet ((register_component entity B (register_component entity A m).2).2) cb entity
        = some ({ B with eid := some entity } : Comp) ∧
    (∀ t, t = ca ∨ t = cb →
      ∀ bucket3,
        dget ((deregister_component entity t
            ((register_component entity B (register_component entity A m).2).2)).2).archetypes ar
          = some bucket3 →
        dget bucket3 entity = none) := by
  have h := (wf_iff m).mp hwf
  have hbent : dget bucket entity = none := by
    cases hbe : dget bucket entity with
    | none => rfl
    | some vs =>
        have hok := (h.buckets (ar, bucket) (dget_mem har)).2 (entity, vs) (dget_mem hbe)
        have hca' := hok.1 ca hca
        rw [show storeGetC m.components ca entity = storeGet m ca entity from rfl, hNa] at hca'
        exact absurd hca' (by simp)
  have hbkeys : distinctKeys bucket = true := (h.buckets (ar, bucket) (dget_mem har)).1
  obtain ⟨r1, ent1, sys1, store1, arch1⟩ :=
    register_component_fresh_obs entity A m he (hA ▸ hNa)
  set m1 := (register_component entity A m).2 with hm1
  have hs1a : storeGet m1 ca entity = some ({ A with eid := some entity } : Comp) := by
    rw [store1 ca entity, if_pos ⟨hA.symm, rfl⟩]
  have hs1b : storeGet m1 cb entity = none := by
    rw [store1 cb entity,
      if_neg (show ¬(cb = A.cid ∧ entity = entity) from fun hh => hab (hh.1.trans hA).symm)]
    exact hNb
  have he1 : entity ∈ m1.entities := by
    rw [ent1]
    exact he
  have harch1 : dget m1.archetypes ar = some bucket := by
    rw [arch1 ar bucket har]
    congr 1
    unfold update_bucket
    rw [if_neg (show ¬((dget bucket entity).isSome = true) from by rw [hbent]; simp)]
    rw [build_values_none hcb
      (show storeGetC m1.components cb entity = none from hs1b)]
  obtain ⟨r2, ent2, sys2, store2, arch2⟩ :=
    register_component_fresh_obs entity B m1 he1 (hB ▸ hs1b)
  set m2 := (register_component entity B m1).2 with hm2
  have hs2b : storeGet m2 cb entity = some ({ B with eid := some entity } : Comp) := by
    rw [store2 cb entity, if_pos ⟨hB.symm, rfl⟩]
  have hs2a : storeGet m2 ca entity = some ({ A with eid := some entity } : Comp) := by
    rw [store2 ca entity,
      if_neg (show ¬(ca = B.cid ∧ entity = entity) from fun hh => hab (hh.1.trans hB))]
    exact hs1a
  have hg : ∀ t ∈ ar, storeGetC m2.components t entity =
      some (if t = ca then { A with eid := some entity }
        else { B with eid := some entity }) := by
    intro t ht
    rcases hsub t ht with h₁ | h₁
    · subst h₁
      rw [if_pos rfl]
      exact hs2a
    · subst h₁
      rw [if_neg (Ne.symm hab)]
      exact hs2b
  have harch2 : dget m2.archetypes ar = some (dset bucket entity (ar.map fun t =>
      if t = ca then { A with eid := some entity }
      else { B with eid := some entity })) := by
    rw [arch2 ar bucket harch1]
    congr 1
    unfold update_bucket
    rw [if_neg (show ¬((dget bucket entity).isSome = true) from by rw [hbent]; simp)]
    rw [build_values_eq_map _ ar hg]
  refine ⟨harch2, hs2a, hs2b, ?_⟩
  intro t htab bucket3 hb3
  have he2 : entity ∈ m2.entities := by
    rw [ent2]
    exact he1
  obtain ⟨x, hx⟩ : ∃ x, storeGet m2 t entity = some x := by
    rcases htab with h₁ | h₁
    · exact ⟨_, h₁ ▸ hs2a⟩
    · exact ⟨_, h₁ ▸ hs2b⟩
  rw [deregister_component_active entity t m2 x he2 hx] at hb3
  have htar : t ∈ ar := by
    rcases htab with h₁ | h₁ <;> subst h₁ <;> assumption
  have hbsome : (dget (dset bucket entity (ar.map fun t' =>
      if t' = ca then { A with eid := some entity }
      else { B with eid := some entity })) entity).isSome = true := by
    rw [dget_dset, if_pos rfl]
    rfl
  simp only [prune_buckets, dget_mapBuckets, harch2, Option.map_some'] at hb3
  unfold prune_bucket at hb3
  rw [if_pos ⟨htar, hbsome⟩] at hb3
  injection hb3 with hb3'
  rw [← hb3']
  exact dget_dpop_self (distinctKeys_dset hbkeys)

/-- Manager with an empty `[0, 1]` archetype bucket and a fresh live
entity 0 for the pair-registration witness. -/
def c5_state : EcsManager :=
  applyOp Op.create_entity
    (applyOp (Op.register_system ⟨0, [(0, [⟨0⟩, ⟨1⟩])]⟩) initManager)

theorem pair_registration_spec_witness :
    dget ((register_component 0 ⟨2, 1, none⟩
          (register_component 0 ⟨1, 0, none⟩ c5_state).2).2).archetypes [0, 1]
        = some (dset [] 0 ([0, 1].map fun t =>
            if t = 0 then ⟨1, 0, some 0⟩ else ⟨2, 1, some 0⟩)) ∧
    storeGet ((register_component 0 ⟨2, 1, none⟩
          (register_component 0 ⟨1, 0, none⟩ c5_state).2).2) 0 0
        = some ⟨1, 0, some 0⟩ ∧
    storeGet ((register_component 0 ⟨2, 1, none⟩
          (register_component 0 ⟨1, 0, none⟩ c5_state).2).2) 1 0
        = some ⟨2, 1, some 0⟩ ∧
    (∀ t, t = 0 ∨ t = 1 →
      ∀ bucket3,
        dget ((deregister_component 0 t
            ((register_component 0 ⟨2, 1, none⟩
              (register_component 0 ⟨1, 0, none⟩ c5_state).2).2)).2).archetypes [0, 1]
          = some bucket3 →
        dget bucket3 0 = none) :=
  pair_registration_spec c5_state 0 0 1 ⟨1, 0, none⟩ ⟨2, 1, none⟩ [0, 1] []
    (by decide) (by decide) (by decide) (by decide) (by decide) (by decide)
    (by decide) (by decide) (by decide) (by decide) (by decide)

/-- C6: for a live entity, `register_component` with no existing component
of the same type installs the new component (with its entity
back-reference set) and returns it; with an existing component of the same
type it installs the new one and returns the OLD evicted instance. -/
theorem register_component_return_value (entity : Nat) (c : Comp) (m : EcsManager)
    (he : entity ∈ m.entities) :
    (storeGet m c.cid entity = none →
      (register_component entity c m).1 = Except.ok ({ c with eid := some entity } : Comp) ∧
      storeGet (register_component entity c m).2 c.cid entity
        = some ({ c with eid := some entity } : Comp)) ∧
    (∀ oldc, storeGet m c.cid entity = some oldc →
      (register_component entity c m).1 = Except.ok oldc ∧
      storeGet (register_component entity c m).2 c.cid entity
        = some ({ c with eid := some entity } : Comp)) := by
  constructor
  · intro hnone
    obtain ⟨h1, _, _, h4, _⟩ := register_component_fresh_obs entity c m he hnone
    refine ⟨h1, ?_⟩
    rw [h4 c.cid entity, if_pos ⟨rfl, rfl⟩]
  · intro oldc hsome
    obtain ⟨h1, _, _, h4⟩ := register_component_replace_obs entity c oldc m he hsome
    exact ⟨h1, h4⟩

/-- Manager with one fresh live entity for the return-value witness. -/
def c6_state : EcsManager :=
  (create_entity initManager).2

/-- `c6_state` after entity 0 registered a type-0 component. -/
def c6_state2 : EcsManager :=
  (register_component 0 ⟨1, 0, none⟩ c6_state).2

theorem register_component_return_value_witness :
    ((register_component 0 ⟨1, 0, none⟩ c6_state).1 = Except.ok ⟨1, 0, some 0⟩ ∧
      storeGet (register_component 0 ⟨1, 0, none⟩ c6_state).2 0 0 = some ⟨1, 0, some 0⟩) ∧
    ((register_component 0 ⟨2, 0, none⟩ c6_state2).1 = Except.ok ⟨1, 0, some 0⟩ ∧
      storeGet (register_component 0 ⟨2, 0, none⟩ c6_state2).2 0 0 = some ⟨2, 0, some 0⟩) :=
  ⟨(register_component_return_value 0 ⟨1, 0, none⟩ c6_state (by decide)).1 (by decide),
   (register_component_return_value 0 ⟨2, 0, none⟩ c6_state2 (by decide)).2
      ⟨1, 0, some 0⟩ (by decide)⟩

/-- C7: deregistering a registered system keeps an archetype bucket (with
its cached membership) exactly when some action of another still-registered
system is bound to the same archetype, and drops the bucket entirely when
the deregistered system was the last one referencing it. -/
theorem deregister_system_spec (m : EcsManager) (s : Sys)
    (actionset : List (Nat × Archetype)) (hwf : wf m = true)
    (hs : dget m.systems s.sid = some actionset) :
    ∀ aid ar, (aid, ar) ∈ actionset →
      (archReferenced (dpop m.systems s.sid) ar = true →
        dget (deregister_system s m).archetypes ar = dget m.archetypes ar) ∧
      (archReferenced (dpop m.systems s.sid) ar = false →
        dget (deregister_system s m).archetypes ar = none) := by
  intro aid ar hmem
  have h := (wf_iff m).mp hwf
  have heq : deregister_system s m =
      { m with systems := dpop m.systems s.sid,
               archetypes := drop_stale (dpop m.systems s.sid) actionset m.archetypes } := by
    unfold deregister_system
    rw [hs]
  rw [heq]
  exact ⟨fun href => (drop_stale_dget _ actionset m.archetypes h.archKeys ar).1 href,
    fun href => (drop_stale_dget _ actionset m.archetypes h.archKeys ar).2 href ⟨aid, hmem⟩⟩

/-- First system of the deregistration witness: actions on archetypes
`[0]` (shared) and `[1]` (exclusive). -/
def c7_sys1 : Sys := ⟨0, [(0, [⟨0⟩]), (1, [⟨1⟩])]⟩

/-- Manager with `c7_sys1` and a second system whose action shares
archetype `[0]`. -/
def c7_state : EcsManager :=
  register_system ⟨1, [(0, [⟨0⟩])]⟩ (register_system c7_sys1 initManager)

theorem deregister_system_spec_witness :
    dget (deregister_system c7_sys1 c7_state).archetypes [0]
        = dget c7_state.archetypes [0] ∧
    dget (deregister_system c7_sys1 c7_state).archetypes [1] = none :=
  ⟨(deregister_system_spec c7_state c7_sys1 [(0, [0]), (1, [1])]
      (by decide) (by decide) 0 [0] (by decide)).1 (by decide),
   (deregister_system_spec c7_state c7_sys1 [(0, [0]), (1, [1])]
      (by decide) (by decide) 1 [1] (by decide)).2 (by decide)⟩

/-- C8: registering a component for an entity id that is not in the live
set fails with the unknown-entity error, and the manager state as the
exception propagates is exactly the state before the call — nothing (live
set, component store, archetype buckets, system registry) is mutated. -/
theorem register_component_unknown_entity (entity : Nat) (c : Comp) (m : EcsManager)
    (h : entity ∉ m.entities) :
    register_component entity c m = (Except.error EcsError.unknownEntity, m) := by
  simp [register_component, h]

theorem register_component_unknown_entity_witness :
    register_component 3 ⟨1, 0, none⟩ initManager
      = (Except.error EcsError.unknownEntity, initManager) :=
  register_component_unknown_entity 3 ⟨1, 0, none⟩ initManager (by decide)

/-- C9: along any operation sequence (create calls arbitrarily interleaved
with every other manager operation), the ids returned by `create_entity`
are strictly increasing in order — hence pairwise distinct and never
reused, even after the entity holding an id is destroyed. -/
theorem create_entity_ids_increasing (ops : List Op) (m : EcsManager) :
    List.Pairwise (fun a b => a < b) (createdIds ops m) := by
  induction ops generalizing m with
  | nil => simp [createdIds]
  | cons op rest ih =>
      cases op
      case create_entity =>
        simp only [createdIds]
        refine List.Pairwise.cons ?_ (ih _)
        intro x hx
        have hge := createdIds_ge rest (applyOp Op.create_entity m) x hx
        have hid : (applyOp Op.create_entity m).entity_id = m.entity_id + 1 := rfl
        rw [hid] at hge
        exact Nat.lt_of_succ_le hge
      all_goals simpa [createdIds] using ih _

/-- C10: `fetch_component` (on a live entity; in fact on any entity) and
`fetch_archetype` (known or unknown archetype) return the manager state
exactly as it was: live set, component store, archetype buckets, system
registry and time-scale factor are all unchanged. -/
theorem fetch_leaves_state_unchanged (entity component_type : Nat)
    (archetype : Archetype) (m : EcsManager) :
    (fetch_component entity component_type m).2 = m ∧
    (fetch_archetype archetype m).2 = m :=
  ⟨fetch_component_state entity component_type m, fetch_archetype_state archetype m⟩

end Pyecs
